import Mathlib

/-!
Verification of the mock.service gateway (Python/FastAPI) against its
natural-language specification.  Python strings are modelled as `List Char`
(a Python `str` is a sequence of code points); Python dicts that are used
as ordered key/value maps are modelled as association lists in insertion
order.  Each definition is a direct translation of the function of the
same name in the repository source; where the source calls into the
ambient Python runtime (the `exec`/`eval` expression evaluator, the httpx
HTTP client, the XML body parser) the runtime is abstracted as an explicit
oracle parameter, and no theorem below depends on the oracle's internals.
-/

namespace MockGateway

/-- Shorthand: the code-point sequence of a string literal. -/
def pstr (s : String) : List Char := s.data

/-- Python `needle in haystack` prefix test, `haystack.startswith(needle)`. -/
def isPrefixL : List Char → List Char → Bool
  | [], _ => true
  | _ :: _, [] => false
  | a :: as, b :: bs => a = b && isPrefixL as bs

/-- Python `s.endswith(t)`. -/
def isSuffixL (t s : List Char) : Bool :=
  isPrefixL t.reverse s.reverse

/-- Python `t in s` (substring containment). -/
def infixL : List Char → List Char → Bool
  | t, [] => t.isEmpty
  | t, s@(_ :: rest) => isPrefixL t s || infixL t rest

/-- Python `str.lower()` (ASCII case folding, which is all the source compares). -/
def lowerL (s : List Char) : List Char := s.map Char.toLower

/-- Python whitespace class for `str.strip()`. -/
def pySpace (c : Char) : Bool :=
  c = ' ' || c = '\t' || c = '\n' || c = '\r' || c = '\x0b' || c = '\x0c'

/-- Python `s.strip()`. -/
def pyStrip (s : List Char) : List Char :=
  ((s.dropWhile pySpace).reverse.dropWhile pySpace).reverse

/-- Python `s.strip(ch)` for a single strip character. -/
def stripCh (ch : Char) (s : List Char) : List Char :=
  ((s.dropWhile (· = ch)).reverse.dropWhile (· = ch)).reverse

/-- Python `s.rstrip(ch)` for a single strip character. -/
def rstripCh (ch : Char) (s : List Char) : List Char :=
  (s.reverse.dropWhile (· = ch)).reverse

/-- First-match association-list lookup: Python `dict.get` over the
insertion-ordered pairs. -/
def lookupL (k : List Char) : List (List Char × List Char) → Option (List Char)
  | [] => none
  | p :: ps => if p.1 = k then some p.2 else lookupL k ps

/-- Python `s.split(sep)[0]`: everything before the first occurrence of `sep`. -/
def beforeFirst (sep : Char) (s : List Char) : List Char :=
  s.takeWhile (· ≠ sep)

/-- Python `s.split(sep)[-1]`: everything after the last occurrence of `sep`. -/
def afterLast (sep : Char) (s : List Char) : List Char :=
  ((s.reverse.takeWhile (· ≠ sep))).reverse

/-- Returns the first `some` produced by `f` along the list (the shape of the
short-circuiting searches in the source). -/
def firstSome : List α → (α → Option β) → Option β
  | [], _ => none
  | a :: as, f =>
    match f a with
    | some b => some b
    | none => firstSome as f

/-- The list `[n, n-1, ..., 1]`: the candidate lengths a greedy regex group
tries, longest first. -/
def countdown : Nat → List Nat
  | 0 => []
  | n + 1 => (n + 1) :: countdown n

theorem firstSome_eq_some {l : List α} {f : α → Option β} {b : β}
    (h : firstSome l f = some b) : ∃ a ∈ l, f a = some b := by
  induction l with
  | nil => simp [firstSome] at h
  | cons x xs ih =>
    rw [firstSome] at h
    cases hx : f x with
    | some v => rw [hx] at h; exact ⟨x, by simp, by simp [hx, ← h]⟩
    | none =>
      rw [hx] at h
      obtain ⟨a, ha, hfa⟩ := ih h
      exact ⟨a, by simp [ha], hfa⟩

theorem firstSome_ne_none {l : List α} {f : α → Option β} {a : α}
    (ha : a ∈ l) (hfa : (f a).isSome) : (firstSome l f).isSome := by
  induction l with
  | nil => simp at ha
  | cons x xs ih =>
    rw [firstSome]
    cases hx : f x with
    | some v => simp
    | none =>
      rcases List.mem_cons.mp ha with rfl | hmem
      · rw [hx] at hfa; simp at hfa
      · exact ih hmem

theorem mem_countdown {k n : Nat} : k ∈ countdown n ↔ 1 ≤ k ∧ k ≤ n := by
  induction n with
  | zero => simp [countdown]; omega
  | succ m ih => simp [countdown, ih]; omega

/-!
`app/utils/path_parser.py` — the path template matcher.

`_pattern_to_regex` escapes the template and turns each `{name}` group into
the anchored regex fragment `(?P<name>[^/]+)`; if the escaped template
contains `{*}` anywhere it instead only replaces `{*}` by `.*` and leaves
`{name}` groups as literal text.  We model the compiled regex as a token
list: a literal character, a named one-or-more-non-slash group, or an
anonymous `.*` group, and model Python's backtracking matcher directly
(greedy: longest candidate first).
-/

/-- One-pass scanner behind `re.findall(r'{([^}]+)}', …)`: outside a brace
(`acc = none`) a `'{'` opens a candidate group; inside (`acc = some seen`)
characters other than `'}'` accumulate (a nested `'{'` is an ordinary name
character for this regex), a `'}'` closes the group when at least one name
character was seen, and an immediately-closed `'{}'` or an unterminated
`'{'` matches nothing. -/
def scanParamsGo : Option (List Char) → List Char → List (List Char)
  | _, [] => []
  | none, c :: rest =>
    if c = '{' then scanParamsGo (some []) rest else scanParamsGo none rest
  | some acc, c :: rest =>
    if c = '}' then
      if acc.isEmpty then scanParamsGo none rest else acc :: scanParamsGo none rest
    else scanParamsGo (some (acc ++ [c])) rest

/-- `PathParser.extract_parameter_names`: `re.findall(r'{([^}]+)}', path_pattern)`,
the leftmost non-overlapping `{name}` group names (a name is one-or-more
non-`'}'` characters). -/
def extract_parameter_names (pat : List Char) : List (List Char) :=
  scanParamsGo none pat

/-- One token of the compiled path regex. -/
inductive Tok where
  | lit (c : Char)
  | par (name : List Char)
  | star
deriving DecidableEq, Repr

/-- One-pass scanner behind `re.sub(r'\\{([^}]+)\\}', r'(?P<\1>[^/]+)', escaped)`:
the same group discipline as `scanParamsGo`, but non-group characters are
emitted as literal tokens; an immediately-closed or unterminated `'{'` stays
literal. -/
def tokNamedGo : Option (List Char) → List Char → List Tok
  | none, [] => []
  | some acc, [] => Tok.lit '{' :: acc.map Tok.lit
  | none, c :: rest =>
    if c = '{' then tokNamedGo (some []) rest else Tok.lit c :: tokNamedGo none rest
  | some acc, c :: rest =>
    if c = '}' then
      if acc.isEmpty then Tok.lit '{' :: Tok.lit '}' :: tokNamedGo none rest
      else Tok.par acc :: tokNamedGo none rest
    else tokNamedGo (some (acc ++ [c])) rest

/-- Tokenization used when the escaped template has no `{*}`:
each `{name}` becomes a named group, everything else is literal. -/
def tokNamed (pat : List Char) : List Tok :=
  tokNamedGo none pat

/-- Tokenization used when the escaped template contains `{*}`
(`escaped.replace('\\{\\*\\}', '.*')`, scanning left to right):
only `{*}` becomes the anonymous `.*` group, everything else (named
placeholders included) stays literal. -/
def tokStar : List Char → List Tok
  | '{' :: '*' :: '}' :: rest => Tok.star :: tokStar rest
  | c :: rest => Tok.lit c :: tokStar rest
  | [] => []

/-- `PathParser._pattern_to_regex` as a token list. -/
def pattern_to_regex (pat : List Char) : List Tok :=
  if infixL (pstr "{*}") pat then tokStar pat else tokNamed pat

/-- The bindings of a match: Python's `match.groupdict()`, in group order. -/
abbrev Bindings := List (List Char × List Char)

/-- The backtracking matcher for the anchored compiled regex, following
Python's leftmost/greedy backtracking: a named group `[^/]+` tries the
longest non-slash candidate first; `.*` tries the longest newline-free
remainder first (`.` does not match `'\n'` without `re.DOTALL`).  The final
anchor is Python's `$` under `re.match`: it accepts the exact end of the
string and ALSO the position just before one trailing `'\n'`, so a path
with exactly one trailing newline beyond the pattern still matches. -/
def matchToks (ts : List Tok) (cs : List Char) : Option Bindings :=
  match ts, cs with
  | [], cs => if cs = [] ∨ cs = ['\n'] then some [] else none
  | Tok.lit _ :: _, [] => none
  | Tok.lit c :: ts', x :: xs => if c = x then matchToks ts' xs else none
  | Tok.par n :: ts', cs =>
    firstSome (countdown cs.length) fun k =>
      if (cs.take k).all (· ≠ '/') then
        (matchToks ts' (cs.drop k)).map ((n, cs.take k) :: ·)
      else none
  | Tok.star :: ts', cs =>
    firstSome (countdown (cs.length + 1)) fun j =>
      if (cs.take (j - 1)).all (· ≠ '\n') then matchToks ts' (cs.drop (j - 1))
      else none

/-- `PathParser.extract_parameters`.  The `{*}` suffix is handled before the
regex machinery by a plain prefix test capturing the remainder under `"*"`.
The source's `if not pattern` equality branch is dead code: `_pattern_to_regex`
always returns a non-empty (anchored) pattern, so every non-wildcard template
goes through the regex; a template without groups compiles to pure literals,
for which the regex match is string equality. -/
def extract_parameters (pat path : List Char) : Option Bindings :=
  if isSuffixL (pstr "{*}") pat then
    let base := pat.take (pat.length - 3)
    if isPrefixL base path then some [(pstr "*", path.drop base.length)]
    else none
  else
    matchToks (pattern_to_regex pat) path

/-- The identifier check `re.match(r'^[a-zA-Z_][a-zA-Z0-9_]*$', param)`. -/
def isIdent (s : List Char) : Bool :=
  match s with
  | [] => false
  | c :: rest =>
    (c.isAlpha || c = '_') && rest.all (fun d => d.isAlphanum || d = '_')

/-- `PathParser.validate_path_pattern`.  Python's `len(params) != len(set(params))`
duplicate test is modelled with `dedup` (distinct-element count).  The per-param
loop applies, to each parameter name in order, the blank test, the wildcard
position test and the identifier test; since the boolean outcome (and the
`(True, "OK")` result the callers consume) only depends on whether some
parameter fails some test, the three passes are modelled as three `any`
scans (the interpolated parts of the error strings are elided).  The final
`_pattern_to_regex` probe never raises for patterns whose group names pass
the identifier check, so it imposes no extra condition here. -/
def validate_path_pattern (pat : List Char) : Bool × List Char :=
  if pat.isEmpty then (false, pstr "Путь не может быть пустым")
  else if !isPrefixL (pstr "/") pat then (false, pstr "Путь должен начинаться с /")
  else if (extract_parameter_names pat).length ≠ (extract_parameter_names pat).dedup.length then
    (false, pstr "Имена параметров должны быть уникальными")
  else if (extract_parameter_names pat).any (fun p => (pyStrip p).isEmpty) then
    (false, pstr "Имя параметра не может быть пустым")
  else if (extract_parameter_names pat).contains (pstr "*") && !isSuffixL (pstr "{*}") pat then
    (false, pstr "Wildcard параметр должен быть в конце пути")
  else if (extract_parameter_names pat).any (fun p => p != pstr "*" && !isIdent p) then
    (false, pstr "Некорректное имя параметра")
  else (true, pstr "OK")

/-- The parameter names bound by a token list, in group order. -/
def tokParNames (ts : List Tok) : List (List Char) :=
  ts.filterMap fun t =>
    match t with
    | Tok.par n => some n
    | _ => none

/-- Substitution of bound parameter values into a token list: literals stay,
each named group is replaced by the value bound to its name (an unbound name
stays as its `{name}` text), the wildcard stays as its `{*}` text.  On a
template's tokens this is exactly the round-trip substitution the
specification's matcher law speaks about. -/
def substToks : List Tok → Bindings → List Char
  | [], _ => []
  | Tok.lit c :: ts, ps => c :: substToks ts ps
  | Tok.par n :: ts, ps =>
    (lookupL n ps).getD ('{' :: n ++ pstr "\x7d") ++ substToks ts ps
  | Tok.star :: ts, ps => pstr "{*}" ++ substToks ts ps

/-- Round-trip substitution on a path template: each `{name}` placeholder is
replaced by the value bound to `name`. -/
def substitute_params (pat : List Char) (ps : Bindings) : List Char :=
  substToks (pattern_to_regex pat) ps

/-- Declarative matching semantics of a compiled token list: the path splits
into consecutive pieces, a literal consumes its character, a named group
consumes a non-empty slash-free segment bound to its name, the wildcard
consumes a newline-free segment without binding anything, and the final `$`
anchor consumes either nothing or one trailing newline. -/
inductive TokMatch : List Tok → List Char → Bindings → Prop where
  | nil : TokMatch [] [] []
  | nilNewline : TokMatch [] ['\n'] []
  | lit {ts cs ps c} : TokMatch ts cs ps → TokMatch (Tok.lit c :: ts) (c :: cs) ps
  | par {ts cs ps n} (seg : List Char) (hne : seg ≠ [])
      (hns : seg.all (fun c => c ≠ '/') = true) (h : TokMatch ts cs ps) :
      TokMatch (Tok.par n :: ts) (seg ++ cs) ((n, seg) :: ps)
  | star {ts cs ps} (pre : List Char)
      (hpn : pre.all (fun c => c ≠ '\n') = true) (h : TokMatch ts cs ps) :
      TokMatch (Tok.star :: ts) (pre ++ cs) ps

theorem tokParNames_lit {c : Char} {ts : List Tok} :
    tokParNames (Tok.lit c :: ts) = tokParNames ts := by
  simp [tokParNames, List.filterMap_cons]

theorem tokParNames_par {n : List Char} {ts : List Tok} :
    tokParNames (Tok.par n :: ts) = n :: tokParNames ts := by
  simp [tokParNames, List.filterMap_cons]

theorem tokParNames_star {ts : List Tok} :
    tokParNames (Tok.star :: ts) = tokParNames ts := by
  simp [tokParNames, List.filterMap_cons]

theorem matchToks_sound {ts : List Tok} {cs : List Char} {ps : Bindings}
    (h : matchToks ts cs = some ps) : TokMatch ts cs ps := by
  induction ts generalizing cs ps with
  | nil =>
    rw [matchToks] at h
    by_cases hc : cs = [] ∨ cs = ['\n']
    · rw [if_pos hc] at h
      cases h
      rcases hc with rfl | rfl
      · exact TokMatch.nil
      · exact TokMatch.nilNewline
    · rw [if_neg hc] at h
      cases h
  | cons t ts' ih =>
    cases t with
    | lit c =>
      cases cs with
      | nil => rw [matchToks] at h; cases h
      | cons x xs =>
        rw [matchToks] at h
        by_cases hc : c = x
        · subst hc
          simp at h
          exact TokMatch.lit (ih h)
        · simp [hc] at h
    | par n =>
      rw [matchToks] at h
      obtain ⟨k, hk, hfk⟩ := firstSome_eq_some h
      rw [mem_countdown] at hk
      split at hfk
      case isFalse => cases hfk
      case isTrue hsl =>
        obtain ⟨ps', hps', rfl⟩ := Option.map_eq_some'.mp hfk
        have hne : cs.take k ≠ [] := by
          have hlt : (cs.take k).length = min k cs.length := List.length_take k cs
          intro hemp
          rw [hemp] at hlt
          simp at hlt
          omega
        have := TokMatch.par (n := n) (cs.take k) hne hsl (ih hps')
        rwa [List.take_append_drop] at this
    | star =>
      rw [matchToks] at h
      obtain ⟨j, hj, hfj⟩ := firstSome_eq_some h
      split at hfj
      case isFalse => cases hfj
      case isTrue hpn =>
        have := TokMatch.star (cs.take (j - 1)) hpn (ih hfj)
        rwa [List.take_append_drop] at this

theorem matchToks_complete {ts : List Tok} {cs : List Char} {ps : Bindings}
    (h : TokMatch ts cs ps) : (matchToks ts cs).isSome := by
  induction h with
  | nil => rw [matchToks]; simp
  | nilNewline => rw [matchToks]; simp
  | lit h ih => rw [matchToks]; simpa using ih
  | @par ts cs ps n seg hne hns h ih =>
    rw [matchToks]
    apply firstSome_ne_none (a := seg.length)
    · rw [mem_countdown]
      refine ⟨by have := List.length_pos.mpr hne; omega, ?_⟩
      simp only [List.length_append]
      omega
    · have htake : (seg ++ cs).take seg.length = seg := List.take_left seg cs
      have hdrop : (seg ++ cs).drop seg.length = cs := List.drop_left seg cs
      rw [htake, hdrop, hns]
      simp only [if_true]
      cases hmt : matchToks ts cs with
      | none => rw [hmt] at ih; simp at ih
      | some ps' => simp
  | @star ts cs ps pre hpn h ih =>
    rw [matchToks]
    apply firstSome_ne_none (a := pre.length + 1)
    · rw [mem_countdown]
      refine ⟨by omega, ?_⟩
      simp only [List.length_append]
      omega
    · have htake : (pre ++ cs).take (pre.length + 1 - 1) = pre := by
        simp [List.take_left]
      have hdrop : (pre ++ cs).drop (pre.length + 1 - 1) = cs := by
        simp [List.drop_left]
      rw [htake, hdrop, hpn]
      simp only [if_true]
      exact ih

theorem tokMatch_keys {ts : List Tok} {cs : List Char} {ps : Bindings}
    (h : TokMatch ts cs ps) : ps.map Prod.fst = tokParNames ts := by
  induction h with
  | nil => rfl
  | nilNewline => rfl
  | lit _ ih => rw [tokParNames_lit]; simpa using ih
  | par seg hne hns _ ih => rw [tokParNames_par]; simpa using ih
  | star pre _ _ ih => rw [tokParNames_star]; simpa using ih

theorem lookupL_cons_self {k v : List Char} {ps : Bindings} :
    lookupL k ((k, v) :: ps) = some v := by
  rw [lookupL]
  simp

theorem substToks_cons_notin {ts : List Tok} {ps : Bindings} {n : List Char}
    {v : List Char} (hn : n ∉ tokParNames ts) :
    substToks ts ((n, v) :: ps) = substToks ts ps := by
  induction ts with
  | nil => rfl
  | cons t ts ih =>
    cases t with
    | lit c =>
      rw [tokParNames_lit] at hn
      rw [substToks, substToks, ih hn]
    | par m =>
      rw [tokParNames_par] at hn
      simp only [List.mem_cons] at hn
      push_neg at hn
      rw [substToks, substToks, ih hn.2]
      have hlk : lookupL m ((n, v) :: ps) = lookupL m ps := by
        rw [lookupL]
        simp [hn.1]
      rw [hlk]
    | star =>
      rw [tokParNames_star] at hn
      rw [substToks, substToks, ih hn]

theorem tokMatch_recompose {ts : List Tok} {cs : List Char} {ps : Bindings}
    (h : TokMatch ts cs ps) (hstar : Tok.star ∉ ts)
    (hnd : (tokParNames ts).Nodup) :
    substToks ts ps = cs ∨ substToks ts ps ++ ['\n'] = cs := by
  induction h with
  | nil => exact Or.inl rfl
  | nilNewline => exact Or.inr rfl
  | @lit ts cs ps c h ih =>
    rw [tokParNames_lit] at hnd
    rw [substToks]
    rcases ih (fun hm => hstar (by simp [hm])) hnd with he | he
    · exact Or.inl (by rw [he])
    · exact Or.inr (by rw [List.cons_append, he])
  | @par ts cs ps n seg hne hns h ih =>
    rw [tokParNames_par] at hnd
    have hnotin : n ∉ tokParNames ts := (List.nodup_cons.mp hnd).1
    rw [substToks, lookupL_cons_self]
    simp only [Option.getD_some]
    rw [substToks_cons_notin hnotin]
    rcases ih (fun hm => hstar (by simp [hm])) (List.nodup_cons.mp hnd).2
      with he | he
    · exact Or.inl (by rw [he])
    · exact Or.inr (by rw [List.append_assoc, he])
  | star pre hpn h ih => simp at hstar

theorem substToks_tokMatch {ts : List Tok} {ps : Bindings}
    (hk : ps.map Prod.fst = tokParNames ts)
    (hv : ∀ p ∈ ps, p.2 ≠ [] ∧ p.2.all (fun c => c ≠ '/') = true)
    (hstar : Tok.star ∉ ts) (hnd : (tokParNames ts).Nodup) :
    TokMatch ts (substToks ts ps) ps := by
  induction ts generalizing ps with
  | nil =>
    have hps : ps = [] := by
      cases ps with
      | nil => rfl
      | cons p ps' => simp [tokParNames] at hk
    subst hps
    exact TokMatch.nil
  | cons t ts ih =>
    cases t with
    | lit c =>
      rw [tokParNames_lit] at hk hnd
      rw [substToks]
      exact TokMatch.lit (ih hk hv (fun hm => hstar (by simp [hm])) hnd)
    | par n =>
      rw [tokParNames_par] at hk hnd
      cases ps with
      | nil => simp at hk
      | cons p ps' =>
        obtain ⟨pn, pv⟩ := p
        simp only [List.map_cons, List.cons.injEq] at hk
        obtain ⟨hp1, hk'⟩ := hk
        subst hp1
        have hnotin : pn ∉ tokParNames ts := (List.nodup_cons.mp hnd).1
        rw [substToks, lookupL_cons_self]
        simp only [Option.getD_some]
        rw [substToks_cons_notin hnotin]
        have hpv := hv (pn, pv) (by simp)
        exact TokMatch.par pv hpv.1 hpv.2
          (ih hk' (fun q hq => hv q (by simp [hq]))
            (fun hm => hstar (by simp [hm])) (List.nodup_cons.mp hnd).2)
    | star => simp at hstar

theorem tokParNames_map_lit (l : List Char) : tokParNames (l.map Tok.lit) = [] := by
  induction l with
  | nil => rfl
  | cons x xs ih => simp [tokParNames, List.filterMap_cons, ih]

theorem star_not_mem_map_lit (l : List Char) : Tok.star ∉ l.map Tok.lit := by
  intro hmem
  obtain ⟨c, _, hc⟩ := List.mem_map.mp hmem
  cases hc

theorem star_not_mem_tokNamedGo (l : List Char) (acc : Option (List Char)) :
    Tok.star ∉ tokNamedGo acc l := by
  induction l generalizing acc with
  | nil =>
    cases acc with
    | none => simp [tokNamedGo]
    | some a =>
      rw [tokNamedGo]
      intro hmem
      rcases List.mem_cons.mp hmem with h | h
      · cases h
      · exact star_not_mem_map_lit a h
  | cons c rest ih =>
    cases acc with
    | none =>
      rw [tokNamedGo]
      by_cases hc : c = '{'
      · rw [if_pos hc]; exact ih _
      · rw [if_neg hc]
        intro hmem
        rcases List.mem_cons.mp hmem with h | h
        · cases h
        · exact ih none h
    | some a =>
      rw [tokNamedGo]
      by_cases hc : c = '}'
      · rw [if_pos hc]
        by_cases ha : a.isEmpty
        · rw [if_pos ha]
          intro hmem
          rcases List.mem_cons.mp hmem with h | h
          · cases h
          · rcases List.mem_cons.mp h with h2 | h2
            · cases h2
            · exact ih none h2
        · rw [if_neg ha]
          intro hmem
          rcases List.mem_cons.mp hmem with h | h
          · cases h
          · exact ih none h
      · rw [if_neg hc]; exact ih _

theorem tokParNames_tokNamedGo (l : List Char) (acc : Option (List Char)) :
    tokParNames (tokNamedGo acc l) = scanParamsGo acc l := by
  induction l generalizing acc with
  | nil =>
    cases acc with
    | none => rfl
    | some a =>
      rw [tokNamedGo, scanParamsGo, tokParNames_lit, tokParNames_map_lit]
  | cons c rest ih =>
    cases acc with
    | none =>
      rw [tokNamedGo, scanParamsGo]
      by_cases hc : c = '{'
      · rw [if_pos hc, if_pos hc]; exact ih _
      · rw [if_neg hc, if_neg hc, tokParNames_lit]; exact ih _
    | some a =>
      rw [tokNamedGo, scanParamsGo]
      by_cases hc : c = '}'
      · rw [if_pos hc, if_pos hc]
        by_cases ha : a.isEmpty
        · rw [if_pos ha, if_pos ha, tokParNames_lit, tokParNames_lit]; exact ih _
        · rw [if_neg ha, if_neg ha, tokParNames_par, ih none]
      · rw [if_neg hc, if_neg hc]; exact ih _

theorem validate_ok_nodup {pat : List Char}
    (h : validate_path_pattern pat = (true, pstr "OK")) :
    (extract_parameter_names pat).Nodup := by
  by_cases hlen : (extract_parameter_names pat).length
      = (extract_parameter_names pat).dedup.length
  · have hsub := List.dedup_sublist (extract_parameter_names pat)
    have heq := hsub.eq_of_length hlen.symm
    rw [← heq]
    exact List.nodup_dedup _
  · exfalso
    rw [validate_path_pattern] at h
    by_cases h1 : pat.isEmpty
    · rw [if_pos h1] at h; exact absurd h (by simp)
    · rw [if_neg h1] at h
      by_cases h2 : (!isPrefixL (pstr "/") pat) = true
      · rw [if_pos h2] at h; exact absurd h (by simp)
      · rw [if_neg h2, if_pos hlen] at h
        exact absurd h (by simp)

theorem isPrefixL_trans {a b c : List Char} (hab : isPrefixL a b = true)
    (hbc : isPrefixL b c = true) : isPrefixL a c = true := by
  induction a generalizing b c with
  | nil => rw [isPrefixL]
  | cons x xs ih =>
    cases b with
    | nil => rw [isPrefixL] at hab; cases hab
    | cons y ys =>
      cases c with
      | nil => rw [isPrefixL] at hbc; cases hbc
      | cons z zs =>
        rw [isPrefixL] at hab hbc ⊢
        simp only [Bool.and_eq_true, decide_eq_true_eq] at hab hbc ⊢
        exact ⟨hab.1.trans hbc.1, ih hab.2 hbc.2⟩

theorem infixL_mono {a b s : List Char} (hab : isPrefixL a b = true)
    (hs : infixL s a = true) : infixL s b = true := by
  induction a generalizing b with
  | nil =>
    rw [infixL] at hs
    simp at hs
    subst hs
    cases b with
    | nil => rw [infixL]; rfl
    | cons y ys => rw [infixL, isPrefixL]; simp
  | cons x xs ih =>
    cases b with
    | nil => rw [isPrefixL] at hab; cases hab
    | cons y ys =>
      rw [isPrefixL] at hab
      simp only [Bool.and_eq_true, decide_eq_true_eq] at hab
      obtain ⟨hxy, hab⟩ := hab
      subst hxy
      rw [infixL] at hs ⊢
      simp only [Bool.or_eq_true] at hs ⊢
      rcases hs with hpre | hinf
      · refine Or.inl (isPrefixL_trans hpre ?_)
        rw [isPrefixL]
        simp only [Bool.and_eq_true, decide_eq_true_eq]
        exact ⟨trivial, hab⟩
      · exact Or.inr (ih hab hinf)

/-- C5, counterexample to the claim as stated.  The claimed equivalence
`match(T, P) = params iff substituting params into T yields P` fails in the
right-to-left direction: substituting `id := "a/b"` into `/u/{id}` yields
`/u/a/b`, yet the matcher rejects that path because a `{name}` group
(`[^/]+` in the compiled regex) never crosses a path-segment boundary. -/
theorem c5_roundtrip_counterexample :
    substitute_params (pstr "/u/\x7bid\x7d") [(pstr "id", pstr "a/b")] = pstr "/u/a/b"
    ∧ extract_parameters (pstr "/u/\x7bid\x7d") (pstr "/u/a/b") = none := by
  constructor
  · decide
  · decide

/-- C5 (amended).  For a template `pat` accepted by `validate_path_pattern`
that neither ends with nor contains the `{*}` wildcard (validation only
accepts a `{*}` occurrence as the template's suffix, so the third hypothesis
is implied by the first two and is stated only because the embedded
tokenizer branches on it):
(1) soundness — any binding map the matcher returns substitutes back to the
matched path, either exactly or up to one trailing newline (the compiled
regex is anchored with `$` and Python's `re.match` lets `$` also match just
before a single final `'\n'`, so a path with one trailing newline can match
while the substituted string lacks that newline); and (2) completeness — if
some binding map that covers exactly the template's parameter names with
non-empty slash-free values substitutes to the path, the matcher succeeds
on that path.  The claim's unrestricted iff is false (see the
counterexample): values that are empty or contain `/` substitute to paths
the matcher rejects. -/
theorem c5_roundtrip_amended (pat path : List Char)
    (hval : validate_path_pattern pat = (true, pstr "OK"))
    (hw : isSuffixL (pstr "{*}") pat = false)
    (hstar : infixL (pstr "{*}") pat = false) :
    (∀ ps, extract_parameters pat path = some ps →
      substitute_params pat ps = path ∨ substitute_params pat ps ++ ['\n'] = path)
    ∧ (∀ ps, ps.map Prod.fst = extract_parameter_names pat →
        (∀ p ∈ ps, p.2 ≠ [] ∧ p.2.all (fun c => c ≠ '/') = true) →
        substitute_params pat ps = path →
        (extract_parameters pat path).isSome) := by
  have hpr : pattern_to_regex pat = tokNamed pat := by
    rw [pattern_to_regex, if_neg]
    simp [hstar]
  have hext : extract_parameters pat path = matchToks (tokNamed pat) path := by
    rw [extract_parameters, if_neg, hpr]
    simp [hw]
  have hsn : Tok.star ∉ tokNamed pat := by
    rw [tokNamed]
    exact star_not_mem_tokNamedGo pat none
  have hnames : tokParNames (tokNamed pat) = extract_parameter_names pat := by
    rw [tokNamed, extract_parameter_names]
    exact tokParNames_tokNamedGo pat none
  have hnd : (tokParNames (tokNamed pat)).Nodup := by
    rw [hnames]
    exact validate_ok_nodup hval
  constructor
  · intro ps hm
    rw [hext] at hm
    rw [substitute_params, hpr]
    exact tokMatch_recompose (matchToks_sound hm) hsn hnd
  · intro ps hk hv hsub
    rw [hext]
    have hk' : ps.map Prod.fst = tokParNames (tokNamed pat) := by rw [hnames]; exact hk
    have htm := substToks_tokMatch hk' hv hsn hnd
    rw [substitute_params, hpr] at hsub
    rw [← hsub]
    exact matchToks_complete htm

/-- Witness for the amended C5 round-trip law at a concrete template. -/
theorem c5_roundtrip_witness :
    substitute_params (pstr "/u/\x7bid\x7d") [(pstr "id", pstr "42")] = pstr "/u/42"
    ∧ (extract_parameters (pstr "/u/\x7bid\x7d") (pstr "/u/42")).isSome = true := by
  have h := c5_roundtrip_amended (pstr "/u/\x7bid\x7d") (pstr "/u/42")
    (by decide) (by decide) (by decide)
  exact ⟨by decide, h.2 [(pstr "id", pstr "42")] (by decide) (by decide) (by decide)⟩

/-- C10: a template ending in the `{*}` wildcard (which validation accepts
even when `{name}` placeholders precede the wildcard) is matched by a plain
prefix test on everything before `{*}`, so the named placeholders are
literal text: any match binds only the key `*`, and any substring of the
literal prefix — in particular a `{name}` placeholder — must occur verbatim
in the matched path.  The closing conjuncts check the concrete template
`/a/{id}/x{*}`: it validates OK, matches only the literal `{id}` spelling
(binding only `*`), and rejects the path that instantiates `id`. -/
theorem c10_wildcard_literal_names :
    (∀ pat path ps, isSuffixL (pstr "{*}") pat = true →
      extract_parameters pat path = some ps →
      ps.map Prod.fst = [pstr "*"]
      ∧ isPrefixL (pat.take (pat.length - 3)) path = true
      ∧ ∀ s, infixL s (pat.take (pat.length - 3)) = true → infixL s path = true)
    ∧ validate_path_pattern (pstr "/a/\x7bid\x7d/x\x7b*\x7d") = (true, pstr "OK")
    ∧ extract_parameters (pstr "/a/\x7bid\x7d/x\x7b*\x7d") (pstr "/a/\x7bid\x7d/xZZ")
        = some [(pstr "*", pstr "ZZ")]
    ∧ extract_parameters (pstr "/a/\x7bid\x7d/x\x7b*\x7d") (pstr "/a/7/xZZ") = none := by
  refine ⟨?_, by decide, by decide, by decide⟩
  intro pat path ps hsfx hm
  rw [extract_parameters, if_pos hsfx] at hm
  by_cases hp : isPrefixL (pat.take (pat.length - 3)) path = true
  · rw [if_pos hp] at hm
    cases hm
    exact ⟨rfl, hp, fun s hs => infixL_mono hp hs⟩
  · rw [if_neg hp] at hm
    cases hm

/-- Witness instantiating the universally quantified part of C10. -/
theorem c10_wildcard_witness :
    ([(pstr "*", pstr "ZZ")] : Bindings).map Prod.fst = [pstr "*"]
    ∧ isPrefixL ((pstr "/a/\x7bid\x7d/x\x7b*\x7d").take
        ((pstr "/a/\x7bid\x7d/x\x7b*\x7d").length - 3)) (pstr "/a/\x7bid\x7d/xZZ") = true := by
  have h := c10_wildcard_literal_names.1 (pstr "/a/\x7bid\x7d/x\x7b*\x7d")
    (pstr "/a/\x7bid\x7d/xZZ") [(pstr "*", pstr "ZZ")] (by decide) (by decide)
  exact ⟨h.1, h.2.1⟩

example : extract_parameters (pstr "/api/users/\x7bid\x7d") (pstr "/api/users/123")
    = some [(pstr "id", pstr "123")] := by decide

/-!
`app/utils/soap_parser.py` — SOAP method-name extraction.

`extract_soap_method_from_body` parses XML (`xml.etree`) with several regex
fallbacks; the XML runtime is not re-implemented here, so the body extractor
enters the model as the oracle parameter `fromBody` of `extract_soap_method`.
No claim below depends on what `fromBody` computes.
-/

/-- `SOAPParser._normalize_method_name`: strip whitespace and quotes, cut a
query string at the first `'?'`, keep only what follows the last `'#'`. -/
def normalize_method_name (m : List Char) : List Char :=
  if m.isEmpty then []
  else
    let n0 := pyStrip (stripCh '\'' (stripCh '"' (pyStrip m)))
    let n1 := if n0.contains '?' then beforeFirst '?' n0 else n0
    if n1.contains '#' then afterLast '#' n1 else n1

/-- `SOAPParser._extract_method_from_action`: try the `'#'` separator, then
`'/'` (rejecting a `.wsdl` tail), then `':'` (rejecting a bare `urn`), else
normalize the whole value; an empty candidate at one separator falls through
to the next.  Only a blank input yields no result. -/
def extract_method_from_action (a0 : List Char) : Option (List Char) :=
  if a0.isEmpty ∨ (pyStrip a0).isEmpty then none
  else
    haveI a : List Char := pyStrip a0
    match
      (if a.contains '#' then
        (if ¬ (pyStrip (afterLast '#' a)).isEmpty
         then some (normalize_method_name (pyStrip (afterLast '#' a))) else none)
       else none) with
    | some r => some r
    | none =>
      match
        (if a.contains '/' then
          (if ¬ (pyStrip (afterLast '/' a)).isEmpty
              ∧ isSuffixL (pstr ".wsdl") (lowerL (pyStrip (afterLast '/' a))) = false
           then some (normalize_method_name (pyStrip (afterLast '/' a))) else none)
         else none) with
      | some r => some r
      | none =>
        match
          (if a.contains ':' then
            (if ¬ (pyStrip (afterLast ':' a)).isEmpty ∧ pyStrip (afterLast ':' a) ≠ pstr "urn"
             then some (normalize_method_name (pyStrip (afterLast ':' a))) else none)
           else none) with
        | some r => some r
        | none => some (normalize_method_name a)

/-- One anchored attempt of `re.search(r'action=["\']([^"\']+)["\']', ct, re.I)`:
a case-insensitive `action=` here, an opening quote of either kind, one or
more non-quote characters, then a closing quote of either kind. -/
def tryQuotedAt (l : List Char) : Option (List Char) :=
  if lowerL (l.take 7) = pstr "action=" then
    match l.drop 7 with
    | [] => none
    | q :: rest =>
      if q = '"' ∨ q = '\'' then
        haveI cap : List Char := rest.takeWhile (fun c => c ≠ '"' ∧ c ≠ '\'')
        if ¬ cap.isEmpty ∧ ¬ (rest.drop cap.length).isEmpty then some cap else none
      else none
  else none

/-- Leftmost-match search for the quoted `action=` pattern. -/
def findActionQuoted : List Char → Option (List Char)
  | [] => none
  | l@(_ :: rest) =>
    match tryQuotedAt l with
    | some v => some v
    | none => findActionQuoted rest

/-- One anchored attempt of `re.search(r'action=([^;\s]+)', ct, re.I)`. -/
def tryUnquotedAt (l : List Char) : Option (List Char) :=
  if lowerL (l.take 7) = pstr "action=" then
    haveI cap : List Char := (l.drop 7).takeWhile (fun c => c ≠ ';' ∧ ¬ pySpace c)
    if ¬ cap.isEmpty then some cap else none
  else none

/-- Leftmost-match search for the unquoted `action=` pattern. -/
def findActionUnquoted : List Char → Option (List Char)
  | [] => none
  | l@(_ :: rest) =>
    match tryUnquotedAt l with
    | some v => some v
    | none => findActionUnquoted rest

/-- `SOAPParser.extract_soap_method_from_headers`: (1) an `action=` parameter
inside `content-type` (quoted, then unquoted), (2) the `soapaction` header
stripped of quotes, (3) any other header whose lowercased name is
`soapaction`.  A step whose extracted method is empty or absent falls
through to the next. -/
def extract_soap_method_from_headers
    (headers : List (List Char × List Char)) : Option (List Char) :=
  match
    (if infixL (pstr "action=") (lowerL ((lookupL (pstr "content-type") headers).getD [])) then
      (match
        (match findActionQuoted ((lookupL (pstr "content-type") headers).getD []) with
         | some v => some v
         | none => findActionUnquoted ((lookupL (pstr "content-type") headers).getD [])) with
       | some v =>
         (match extract_method_from_action (pyStrip v) with
          | some m => if ¬ m.isEmpty then some m else none
          | none => none)
       | none => none)
     else none) with
  | some m => some m
  | none =>
    match
      (if ¬ (stripCh '\'' (stripCh '"' ((lookupL (pstr "soapaction") headers).getD []))).isEmpty then
        (match extract_method_from_action
            (stripCh '\'' (stripCh '"' ((lookupL (pstr "soapaction") headers).getD []))) with
         | some m => if ¬ m.isEmpty then some m else none
         | none => none)
       else none) with
    | some m => some m
    | none =>
      firstSome headers fun p =>
        if lowerL p.1 = pstr "soapaction" ∧ p.1 ≠ pstr "soapaction" then
          (if ¬ (stripCh '\'' (stripCh '"' p.2)).isEmpty then
            (match extract_method_from_action (stripCh '\'' (stripCh '"' p.2)) with
             | some m => if ¬ m.isEmpty then some m else none
             | none => none)
           else none)
        else none

/-- Primary acceptance path of `SOAPParser.extract_soap_method`
(lines 244–249): the header-derived name is accepted outright only when its
stripped form has length > 1 and its normalization is non-empty of
length > 1. -/
def soap_primary : Option (List Char) → Option (List Char)
  | none => none
  | some m =>
    if 1 < (pyStrip m).length then
      if ¬ (normalize_method_name m).isEmpty ∧ 1 < (normalize_method_name m).length
      then some (normalize_method_name m) else none
    else none

/-- Acceptance filter on the body extractor's result inside
`SOAPParser.extract_soap_method` (lines 258–263): any name with a non-empty
normalization — length 1 included — is returned. -/
def soap_body_accept : Option (List Char) → Option (List Char)
  | none => none
  | some mb =>
    if ¬ (normalize_method_name mb).isEmpty then some (normalize_method_name mb) else none

/-- Body fallback of `SOAPParser.extract_soap_method` (lines 252–265): run
the body extractor only when a non-empty body was supplied. -/
def soap_body_step (fromBody : List Char → Option (List Char)) :
    Option (List Char) → Option (List Char)
  | none => none
  | some b => if ¬ b.isEmpty then soap_body_accept (fromBody b) else none

/-- Last-resort path of `SOAPParser.extract_soap_method` (lines 270–274):
return the header-derived name whenever its normalization is non-empty —
again length 1 included. -/
def soap_last_resort : Option (List Char) → Option (List Char)
  | none => none
  | some m =>
    if ¬ (normalize_method_name m).isEmpty then some (normalize_method_name m) else none

/-- `SOAPParser.extract_soap_method`: headers first (strict length > 1
filter), then the body extractor, then the unfiltered header name. -/
def extract_soap_method (fromBody : List Char → Option (List Char))
    (headers : List (List Char × List Char)) (body : Option (List Char)) :
    Option (List Char) :=
  match soap_primary (extract_soap_method_from_headers headers) with
  | some r => some r
  | none =>
    match soap_body_step fromBody body with
    | some r => some r
    | none => soap_last_resort (extract_soap_method_from_headers headers)

example : extract_soap_method (fun _ => none)
    [(pstr "soapaction", pstr "urn:ns#GetUser")] none = some (pstr "GetUser") := by decide
example : extract_soap_method (fun _ => none)
    [(pstr "content-type", pstr "text/xml")] none = none := by decide

theorem soap_primary_nonempty {mh : Option (List Char)} {m : List Char}
    (h : soap_primary mh = some m) : ¬ m.isEmpty := by
  cases mh with
  | none => cases h
  | some mm =>
    rw [soap_primary] at h
    split_ifs at h with h1 h2
    cases h
    exact h2.1

theorem soap_body_accept_nonempty {r : Option (List Char)} {m : List Char}
    (h : soap_body_accept r = some m) : ¬ m.isEmpty := by
  cases r with
  | none => cases h
  | some mb =>
    rw [soap_body_accept] at h
    split_ifs at h with h1
    cases h
    exact h1

theorem soap_last_resort_nonempty {mh : Option (List Char)} {m : List Char}
    (h : soap_last_resort mh = some m) : ¬ m.isEmpty := by
  cases mh with
  | none => cases h
  | some mm =>
    rw [soap_last_resort] at h
    split_ifs at h with h1
    cases h
    exact h1

/-- C9, counterexample to the claim as stated: a one-character `SOAPAction`
is rejected by the primary filter, but with no body to fall through to, the
last-resort path returns it anyway, so `extract_soap_method` does return a
string of length 1. -/
theorem c9_short_name_counterexample :
    extract_soap_method (fun _ => none) [(pstr "soapaction", pstr "A")] none
      = some (pstr "A")
    ∧ (pstr "A").length = 1 := by
  constructor
  · decide
  · decide

/-- C9 (amended): only emptiness is filtered everywhere — `extract_soap_method`
never returns an empty method name, for every body extractor, header map and
body.  The length ≤ 1 test guards only the primary header path (deferring to
the body); the body fallback and the last-resort header return accept
length-1 names (see the counterexample). -/
theorem c9_nonempty_amended (fromBody : List Char → Option (List Char))
    (headers : List (List Char × List Char)) (body : Option (List Char))
    (m : List Char) (h : extract_soap_method fromBody headers body = some m) :
    ¬ m.isEmpty := by
  rw [extract_soap_method] at h
  cases hp : soap_primary (extract_soap_method_from_headers headers) with
  | some r =>
    rw [hp] at h
    cases h
    exact soap_primary_nonempty hp
  | none =>
    rw [hp] at h
    cases hb : soap_body_step fromBody body with
    | some r =>
      rw [hb] at h
      cases h
      cases body with
      | none => cases hb
      | some b =>
        rw [soap_body_step] at hb
        split_ifs at hb with h1
        exact soap_body_accept_nonempty hb
    | none =>
      rw [hb] at h
      exact soap_last_resort_nonempty h

/-- Witness for the amended C9 non-emptiness guarantee at a concrete header
map. -/
theorem c9_nonempty_witness : ¬ (pstr "GetUser").isEmpty :=
  c9_nonempty_amended (fun _ => none) [(pstr "soapaction", pstr "urn:ns#GetUser")]
    none (pstr "GetUser") (by decide)
example : extract_parameters (pstr "/api/users/\x7bid\x7d") (pstr "/api/users/1/2")
    = none := by decide
example : extract_parameters (pstr "/users\x7b*\x7d") (pstr "/users/a/b")
    = some [(pstr "*", pstr "/a/b")] := by decide
example : extract_parameters (pstr "/hello") (pstr "/hello") = some [] := by decide
example : extract_parameters (pstr "/hello") (pstr "/hellx") = none := by decide
example : extract_parameters (pstr "/hello") (pstr "/hello\n") = some [] := by decide
example : extract_parameters (pstr "/hello") (pstr "/hello\n\n") = none := by decide
example : extract_parameters (pstr "/a/\x7bid\x7d/b") (pstr "/a/x/b\n")
    = some [(pstr "id", pstr "x")] := by decide
example : extract_parameters (pstr "/a/\x7bid\x7d") (pstr "/a/x\n")
    = some [(pstr "id", pstr "x\n")] := by decide
example : (validate_path_pattern (pstr "/a/\x7bid\x7d/\x7bid\x7d")).1 = false := by decide
example : validate_path_pattern (pstr "/a/\x7bid\x7d\x7b*\x7d") = (true, pstr "OK") := by decide

/-!
`app/services/mock_service.py` — the router
(`MockServiceService.find_mock_service_by_path_and_method`).
-/

/-- Python `str.upper()` (ASCII, as used for HTTP method comparison). -/
def upperL (s : List Char) : List Char := s.map Char.toUpper

/-- `re.split(r'[._-]', s)`: split at every dot, underscore or hyphen,
keeping empty pieces. -/
def splitSepsGo (acc : List Char) : List Char → List (List Char)
  | [] => [acc.reverse]
  | c :: rest =>
    if c = '.' ∨ c = '_' ∨ c = '-' then acc.reverse :: splitSepsGo [] rest
    else splitSepsGo (c :: acc) rest

/-- The service type enum of `app/models/mock_service.py`. -/
inductive ServiceType where
  | REST
  | SOAP
deriving DecidableEq, Repr

/-- The routing-relevant fields of the `MockService` model. -/
structure MockService where
  id : Nat
  name : List Char
  path : List Char
  methods : List (List Char)
  service_type : ServiceType
  is_active : Bool
deriving DecidableEq, Repr

/-- `MockServiceService._matches_soap_service`: the cascade of
case-insensitive name-matching rules — substring, `_`/`.`-separated suffix
and prefix, bare suffix and prefix, reverse containment, and finally any
shared `[._-]`-component of length > 2. -/
def matches_soap_service (service_name soap_method : List Char) : Bool :=
  if service_name.isEmpty ∨ soap_method.isEmpty then false
  else
    haveI sn : List Char := pyStrip (lowerL service_name)
    haveI sm : List Char := pyStrip (lowerL soap_method)
    infixL sm sn
    || isSuffixL ('_' :: sm) sn
    || isPrefixL (sm ++ ['_']) sn
    || isSuffixL ('.' :: sm) sn
    || isPrefixL (sm ++ ['.']) sn
    || isSuffixL sm sn
    || isPrefixL sm sn
    || infixL sn sm
    || (splitSepsGo [] sn).any fun a =>
        2 < a.length && (splitSepsGo [] sm).any fun b =>
          2 < b.length && (a == b || infixL a b || infixL b a)

/-- The candidate test of the router loop: the request method (uppercased)
is among the service's uppercased methods and the service's path template
matches the request path. -/
def router_candidate (path method : List Char) (s : MockService) : Bool :=
  (s.methods.map upperL).contains (upperL method)
    && (extract_parameters s.path path).isSome

/-- The `for service in services` loop of
`find_mock_service_by_path_and_method`, with the running SOAP fallback `fb`
made explicit.  A strict SOAP name match (or any REST candidate) returns
immediately; a SOAP candidate for which no method name was extracted
overwrites `fb` (the source assigns `fallback_service = service`
unconditionally); after the loop the remembered fallback, if any, is
returned. -/
def find_loop (fromBody : List Char → Option (List Char))
    (path method : List Char) (body : Option (List Char))
    (headers : Option (List (List Char × List Char))) :
    Option (MockService × Bindings) → List MockService →
      Option MockService × Bindings
  | fb, [] =>
    match fb with
    | some p => (some p.1, p.2)
    | none => (none, [])
  | fb, s :: rest =>
    if ¬ (s.methods.map upperL).contains (upperL method) then
      find_loop fromBody path method body headers fb rest
    else
      match extract_parameters s.path path with
      | none => find_loop fromBody path method body headers fb rest
      | some ps =>
        match s.service_type with
        | ServiceType.SOAP =>
          match headers with
          | some hs =>
            if ¬ hs.isEmpty then
              match extract_soap_method fromBody hs body with
              | some sm =>
                if ¬ sm.isEmpty then
                  if matches_soap_service s.name sm then (some s, ps)
                  else find_loop fromBody path method body headers fb rest
                else find_loop fromBody path method body headers (some (s, ps)) rest
              | none => find_loop fromBody path method body headers (some (s, ps)) rest
            else find_loop fromBody path method body headers fb rest
          | none => find_loop fromBody path method body headers fb rest
        | ServiceType.REST => (some s, ps)

/-- `MockServiceService.find_mock_service_by_path_and_method`: the query
restricts to active services (`where is_active == True`); then the loop
above runs with an empty fallback.  The SOAP discrimination only runs when
`headers` is truthy (a non-empty dict); a SOAP candidate without truthy
headers is skipped entirely. -/
def find_mock_service_by_path_and_method (fromBody : List Char → Option (List Char))
    (services : List MockService) (path method : List Char)
    (body : Option (List Char)) (headers : Option (List (List Char × List Char))) :
    Option MockService × Bindings :=
  find_loop fromBody path method body headers none (services.filter (·.is_active))

/-- The last element of a list satisfying `p`, if any — what the router's
repeatedly-overwritten fallback variable holds after the loop. -/
def lastSuchThat (p : α → Bool) : List α → Option α
  | [] => none
  | a :: rest =>
    match lastSuchThat p rest with
    | some r => some r
    | none => if p a then some a else none

/-- C3, counterexample to the claim as stated: two active SOAP services
`Alpha` (id 1, registered first) and `Beta` (id 2) share `/soap` and `POST`;
the headers are truthy but carry no SOAP action and there is no body, so no
method name is extracted.  The claim says the first registered service
(`Alpha`) is the SOAP fallback; the router returns `Beta`, because the loop
overwrites the fallback variable on every candidate. -/
theorem c3_soap_fallback_counterexample :
    (find_mock_service_by_path_and_method (fun _ => none)
      [⟨1, pstr "Alpha", pstr "/soap", [pstr "POST"], ServiceType.SOAP, true⟩,
       ⟨2, pstr "Beta", pstr "/soap", [pstr "POST"], ServiceType.SOAP, true⟩]
      (pstr "/soap") (pstr "POST") none
      (some [(pstr "content-type", pstr "text/xml")])).1
    = some ⟨2, pstr "Beta", pstr "/soap", [pstr "POST"], ServiceType.SOAP, true⟩
    ∧ (2 : Nat) ≠ 1 := by
  constructor
  · decide
  · decide

theorem find_loop_all_soap_no_method (fromBody : List Char → Option (List Char))
    (path method : List Char) (body : Option (List Char))
    (hs : List (List Char × List Char)) (hhs : ¬ hs.isEmpty)
    (hnm : extract_soap_method fromBody hs body = none) :
    ∀ (l : List MockService) (fb : Option (MockService × Bindings)),
      (∀ s ∈ l, s.service_type = ServiceType.SOAP) →
      find_loop fromBody path method body (some hs) fb l
        = match lastSuchThat (router_candidate path method) l with
          | some s => (some s, (extract_parameters s.path path).getD [])
          | none =>
            match fb with
            | some p => (some p.1, p.2)
            | none => (none, []) := by
  intro l
  induction l with
  | nil => intro fb hall; rfl
  | cons s rest ih =>
    intro fb hall
    have hsoap : s.service_type = ServiceType.SOAP := hall s (by simp)
    rw [find_loop, lastSuchThat]
    by_cases hm : (s.methods.map upperL).contains (upperL method) = true
    · rw [if_neg (not_not_intro hm)]
      cases hep : extract_parameters s.path path with
      | none =>
        have hcand : router_candidate path method s = false := by
          rw [router_candidate, hep]
          simp
        rw [ih fb (fun q hq => hall q (by simp [hq]))]
        cases lastSuchThat (router_candidate path method) rest with
        | some r => rfl
        | none => rw [if_neg (by simp [hcand])]
      | some ps =>
        rw [hsoap]
        dsimp only
        rw [if_pos hhs, hnm]
        dsimp only
        rw [ih (some (s, ps)) (fun q hq => hall q (by simp [hq]))]
        have hcand : router_candidate path method s = true := by
          rw [router_candidate, hep, hm]
          rfl
        cases lastSuchThat (router_candidate path method) rest with
        | some r => rfl
        | none =>
          rw [if_pos hcand]
          simp [hep]
    · rw [if_pos hm]
      have hcand : router_candidate path method s = false := by
        rw [router_candidate]
        cases hc : (s.methods.map upperL).contains (upperL method)
        · rfl
        · exact absurd hc hm
      rw [ih fb (fun q hq => hall q (by simp [hq]))]
      cases lastSuchThat (router_candidate path method) rest with
      | some r => rfl
      | none => rw [if_neg (by simp [hcand])]

/-- C3 (amended): over a set of active SOAP services, when the headers are
truthy but no SOAP method name can be extracted from headers or body, the
router returns the LAST service (in registration order) whose method set and
path template match — not the first, as the spec claims: the loop overwrites
its fallback variable on every matching candidate.  (The parenthetical of
the claim is preserved: a strict name match returns immediately and so wins
over any fallback, but under this claim's premise no method name exists, so
no strict match can occur.) -/
theorem c3_soap_fallback_amended (fromBody : List Char → Option (List Char))
    (services : List MockService) (path method : List Char)
    (body : Option (List Char)) (hs : List (List Char × List Char))
    (hhs : ¬ hs.isEmpty)
    (hall : ∀ s ∈ services, s.service_type = ServiceType.SOAP ∧ s.is_active = true)
    (hnm : extract_soap_method fromBody hs body = none) :
    find_mock_service_by_path_and_method fromBody services path method body (some hs)
      = match lastSuchThat (router_candidate path method) services with
        | some s => (some s, (extract_parameters s.path path).getD [])
        | none => (none, []) := by
  rw [find_mock_service_by_path_and_method]
  have hfilter : services.filter (·.is_active) = services :=
    List.filter_eq_self.mpr (fun s hm => by simp [(hall s hm).2])
  rw [hfilter]
  exact find_loop_all_soap_no_method fromBody path method body hs hhs hnm
    services none (fun s hm => (hall s hm).1)

/-- Witness for the amended C3 fallback rule at the two-service instance. -/
theorem c3_soap_fallback_witness :
    find_mock_service_by_path_and_method (fun _ => none)
      [⟨1, pstr "Alpha", pstr "/soap", [pstr "POST"], ServiceType.SOAP, true⟩,
       ⟨2, pstr "Beta", pstr "/soap", [pstr "POST"], ServiceType.SOAP, true⟩]
      (pstr "/soap") (pstr "POST") none
      (some [(pstr "content-type", pstr "text/xml")])
    = (some ⟨2, pstr "Beta", pstr "/soap", [pstr "POST"], ServiceType.SOAP, true⟩, []) := by
  rw [c3_soap_fallback_amended (fun _ => none) _ _ _ _ _
    (by decide) (by decide) (by decide)]
  decide

/-!
`app/services/mock_processor.py` — the strategy processor.  Time (delays,
`proxy_time`) is not modelled; the httpx client is an oracle returning
either a response or one of the two exception classes the source
distinguishes (`httpx.RequestError` vs any other `Exception`).
-/

/-- Python `str.replace(pat, rep)` scanning left to right without overlap,
with `skip` counting pattern characters still to consume after a match was
emitted.  (The source only ever substitutes non-empty `{name}` placeholders
and variable names, so the empty-pattern case cannot arise; it is guarded
in `replaceAllL`.) -/
def replaceSkip (pat rep : List Char) : Nat → List Char → List Char
  | _ + 1, [] => []
  | n + 1, _ :: rest => replaceSkip pat rep n rest
  | 0, [] => []
  | 0, c :: rest =>
    if isPrefixL pat (c :: rest) then rep ++ replaceSkip pat rep (pat.length - 1) rest
    else c :: replaceSkip pat rep 0 rest

/-- Python `s.replace(pat, rep)` for a non-empty pattern. -/
def replaceAllL (s pat rep : List Char) : List Char :=
  if pat.isEmpty then s else replaceSkip pat rep 0 s

example : replaceAllL (pstr "a/\x7bid\x7d/\x7bid\x7d") (pstr "\x7bid\x7d") (pstr "7")
    = pstr "a/7/7" := by decide

/-- The request headers dropped before forwarding upstream
(`excluded_headers` in `_process_proxy` and `_proxy_conditional_request`). -/
def excluded_request_headers : List (List Char) :=
  [pstr "content-length", pstr "host"]

/-- The upstream response headers dropped before answering the client
(`excluded_response_headers` in both proxy paths). -/
def excluded_response_headers : List (List Char) :=
  [pstr "content-length", pstr "transfer-encoding", pstr "connection", pstr "content-encoding"]

/-- The header-forwarding loop of both proxy paths: keep every pair whose
lowercased name is not excluded.  (The source accumulates into a dict; a
duplicate header name would collapse to the last pair, which no claim here
observes, so the association list keeps all retained pairs.) -/
def filter_request_headers (hs : List (List Char × List Char)) :
    List (List Char × List Char) :=
  hs.filter fun p => !excluded_request_headers.contains (lowerL p.1)

/-- The response-header loop of both proxy paths. -/
def filter_response_headers (hs : List (List Char × List Char)) :
    List (List Char × List Char) :=
  hs.filter fun p => !excluded_response_headers.contains (lowerL p.1)

/-- `MockProcessor._extract_additional_path`: strip trailing slashes from
both paths; equal paths contribute nothing; a request path extending the
mock path contributes the remainder with a leading `/` ensured; otherwise
the whole (stripped) request path is returned. -/
def extract_additional_path (mock_path request_path : List Char) : List Char :=
  if rstripCh '/' mock_path = rstripCh '/' request_path then []
  else if isPrefixL (rstripCh '/' mock_path) (rstripCh '/' request_path) then
    if isPrefixL (pstr "/")
        ((rstripCh '/' request_path).drop (rstripCh '/' mock_path).length) then
      (rstripCh '/' request_path).drop (rstripCh '/' mock_path).length
    else '/' :: (rstripCh '/' request_path).drop (rstripCh '/' mock_path).length
  else rstripCh '/' request_path

/-- `MockProcessor._build_proxy_url`.  If any `{name}` placeholder for a
supplied parameter occurs in `proxy_url`, substitute all of them in
insertion order and append no path; otherwise strip trailing slashes from
`proxy_url` and, when the raw request path differs from the raw mock path,
append `_extract_additional_path`'s result.  A non-empty query string is
appended as `?query`.  (The `try/except` of the source cannot fire: every
operation here is a total string operation.) -/
def proxy_target (proxy_url mock_path request_path : List Char)
    (path_params : Bindings) : List Char :=
  if path_params.any (fun p => infixL ('{' :: p.1 ++ pstr "\x7d") proxy_url) then
    path_params.foldl (fun url p => replaceAllL url ('{' :: p.1 ++ pstr "\x7d") p.2) proxy_url
  else
    rstripCh '/' proxy_url ++
      (if request_path ≠ mock_path then extract_additional_path mock_path request_path
       else [])

def build_proxy_url (proxy_url mock_path request_path : List Char)
    (path_params : Bindings) (query_string : List Char) : List Char :=
  if ¬ query_string.isEmpty then
    proxy_target proxy_url mock_path request_path path_params ++ '?' :: query_string
  else proxy_target proxy_url mock_path request_path path_params

example : build_proxy_url (pstr "https://api/u/\x7bid\x7d") (pstr "/users/\x7bid\x7d")
    (pstr "/users/42") [(pstr "id", pstr "42")] (pstr "x=1")
    = pstr "https://api/u/42?x=1" := by decide
example : build_proxy_url (pstr "http://up/") (pstr "/m") (pstr "/m/extra") [] []
    = pstr "http://up/extra" := by decide

/-- The `proxy_info` telemetry dict attached to log records. -/
structure ProxyInfo where
  target_url : List Char
  proxy_headers : List (List Char × List Char)
  proxy_response_status : Option Nat
  proxy_response_headers : List (List Char × List Char)
  proxy_response_body : List Char
  proxy_error : Option (List Char)
deriving DecidableEq, Repr

/-- Outcome of one httpx call: a response, an `httpx.RequestError`
(DNS/connect/timeout — the transport errors), or any other exception. -/
inductive HttpOutcome where
  | ok (status : Nat) (headers : List (List Char × List Char)) (text : List Char)
  | requestError (msg : List Char)
  | otherError (msg : List Char)
deriving DecidableEq, Repr

/-- The httpx client oracle: method, target URL, forwarded headers, body. -/
abbrev HttpClient :=
  List Char → List Char → List (List Char × List Char) → List Char → HttpOutcome

/-- The result quadruple of the processor:
`(status_code, response_body, headers, proxy_info)`. -/
abbrev ProcResult := Nat × List Char × List (List Char × List Char) × Option ProxyInfo

/-- `MockProcessor._process_proxy`: reject a missing/empty `proxy_url` with
`500`; otherwise build the target URL, forward the filtered request headers
and body, and on success return the upstream status, body text and filtered
response headers with populated telemetry.  An `httpx.RequestError` maps to
`502`, any other exception to `500`, both with `proxy_error` set (the only
failure source of the `try` block in this model is the client call, which
is also where the source's two `except` arms aim). -/
def process_proxy (client : HttpClient) (proxy_url : List Char)
    (mock_path request_path : List Char) (path_params : Bindings)
    (query req_method : List Char) (req_headers : List (List Char × List Char))
    (body : List Char) : ProcResult :=
  if proxy_url.isEmpty then (500, pstr "Не указан proxy_url", [], none)
  else
    match client req_method (build_proxy_url proxy_url mock_path request_path path_params query)
        (filter_request_headers req_headers) body with
    | HttpOutcome.ok st rhs txt =>
      (st, txt, filter_response_headers rhs,
        some ⟨build_proxy_url proxy_url mock_path request_path path_params query,
          filter_request_headers req_headers, some st, rhs, txt, none⟩)
    | HttpOutcome.requestError m =>
      (502, pstr "Ошибка соединения с внешним сервисом: " ++ m, [],
        some ⟨build_proxy_url proxy_url mock_path request_path path_params query,
          filter_request_headers req_headers, none, [], [], some m⟩)
    | HttpOutcome.otherError m =>
      (500, pstr "Внутренняя ошибка proxy: " ++ m, [],
        some ⟨build_proxy_url proxy_url mock_path request_path path_params query,
          filter_request_headers req_headers, none, [], [], some m⟩)

/-- `MockProcessor._proxy_conditional_request`: the proxy path of a
conditional branch.  Same header filtering and URL construction (the
current request path stands in for both `mock_path` and `request_path`),
but a single `except Exception` arm: EVERY failure — `httpx.RequestError`
included — returns `500` with `proxy_error` set; no `502` is possible
here. -/
def proxy_conditional_request (client : HttpClient) (proxy_url : List Char)
    (request_path query req_method : List Char)
    (req_headers : List (List Char × List Char)) (body : List Char)
    (path_params : Bindings) : ProcResult :=
  match client req_method (build_proxy_url proxy_url request_path request_path path_params query)
      (filter_request_headers req_headers) body with
  | HttpOutcome.ok st rhs txt =>
    (st, txt, filter_response_headers rhs,
      some ⟨build_proxy_url proxy_url request_path request_path path_params query,
        filter_request_headers req_headers, some st, rhs, txt, none⟩)
  | HttpOutcome.requestError m =>
    (500, pstr "Ошибка проксирования: " ++ m, [],
      some ⟨build_proxy_url proxy_url request_path request_path path_params query,
        filter_request_headers req_headers, none, [], [], some m⟩)
  | HttpOutcome.otherError m =>
    (500, pstr "Ошибка проксирования: " ++ m, [],
      some ⟨build_proxy_url proxy_url request_path request_path path_params query,
        filter_request_headers req_headers, none, [], [], some m⟩)

/-- C2, counterexample to the claim as stated: with an upstream that fails
with a transport error (`httpx.RequestError`, e.g. a timeout), the
conditional proxy branch returns `500`, not the claimed `502`: its single
`except Exception` arm does not distinguish transport errors. -/
theorem c2_conditional_transport_counterexample :
    (proxy_conditional_request (fun _ _ _ _ => HttpOutcome.requestError (pstr "timeout"))
      (pstr "http://up") (pstr "/x") [] (pstr "GET") [] [] []).1 = 500
    ∧ (500 : Nat) ≠ 502 := by
  constructor
  · decide
  · decide

/-- C2 (amended): in the top-level PROXY strategy a transport error maps to
`502` and any other error to `500`, both with `proxyInfo`'s error field set
to the exception message; in a conditional proxy branch EVERY error —
transport errors included — maps to `500` with the error field set.  The
hypotheses pin the oracle's answer on exactly the call the processor
makes. -/
theorem c2_proxy_error_mapping_amended (client : HttpClient)
    (proxy_url mock_path request_path : List Char) (path_params : Bindings)
    (query req_method : List Char) (req_headers : List (List Char × List Char))
    (body m : List Char) (hpu : ¬ proxy_url.isEmpty) :
    (client req_method (build_proxy_url proxy_url mock_path request_path path_params query)
        (filter_request_headers req_headers) body = HttpOutcome.requestError m →
      (process_proxy client proxy_url mock_path request_path path_params query
          req_method req_headers body).1 = 502
      ∧ ∃ info, (process_proxy client proxy_url mock_path request_path path_params query
          req_method req_headers body).2.2.2 = some info ∧ info.proxy_error = some m)
    ∧ (client req_method (build_proxy_url proxy_url mock_path request_path path_params query)
        (filter_request_headers req_headers) body = HttpOutcome.otherError m →
      (process_proxy client proxy_url mock_path request_path path_params query
          req_method req_headers body).1 = 500
      ∧ ∃ info, (process_proxy client proxy_url mock_path request_path path_params query
          req_method req_headers body).2.2.2 = some info ∧ info.proxy_error = some m)
    ∧ ((client req_method (build_proxy_url proxy_url request_path request_path path_params query)
          (filter_request_headers req_headers) body = HttpOutcome.requestError m
        ∨ client req_method (build_proxy_url proxy_url request_path request_path path_params query)
          (filter_request_headers req_headers) body = HttpOutcome.otherError m) →
      (proxy_conditional_request client proxy_url request_path query req_method
          req_headers body path_params).1 = 500
      ∧ ∃ info, (proxy_conditional_request client proxy_url request_path query req_method
          req_headers body path_params).2.2.2 = some info ∧ info.proxy_error = some m) := by
  refine ⟨?_, ?_, ?_⟩
  · intro h
    rw [process_proxy, if_neg hpu, h]
    exact ⟨rfl, _, rfl, rfl⟩
  · intro h
    rw [process_proxy, if_neg hpu, h]
    exact ⟨rfl, _, rfl, rfl⟩
  · intro h
    rcases h with h | h <;>
      (rw [proxy_conditional_request, h]; exact ⟨rfl, _, rfl, rfl⟩)

/-- Witness for the amended C2 error mapping at a concrete failing
upstream. -/
theorem c2_proxy_error_mapping_witness :
    (process_proxy (fun _ _ _ _ => HttpOutcome.requestError (pstr "timeout"))
      (pstr "http://up") (pstr "/x") (pstr "/x") [] [] (pstr "GET") [] []).1 = 502
    ∧ (proxy_conditional_request (fun _ _ _ _ => HttpOutcome.requestError (pstr "timeout"))
      (pstr "http://up") (pstr "/x") [] (pstr "GET") [] [] []).1 = 500 := by
  have h := c2_proxy_error_mapping_amended
    (fun _ _ _ _ => HttpOutcome.requestError (pstr "timeout"))
    (pstr "http://up") (pstr "/x") (pstr "/x") [] [] (pstr "GET") [] [] (pstr "timeout")
    (by decide)
  exact ⟨(h.1 rfl).1, (h.2.2 (Or.inl rfl)).1⟩

theorem mem_filter_request_headers {hs : List (List Char × List Char)}
    {k v : List Char} (h : (k, v) ∈ filter_request_headers hs) :
    lowerL k ≠ pstr "content-length" ∧ lowerL k ≠ pstr "host" := by
  rw [filter_request_headers] at h
  have hf := (List.mem_filter.mp h).2
  simp only [excluded_request_headers, Bool.not_eq_true'] at hf
  constructor <;> (intro he; rw [he] at hf; simp [List.contains] at hf)

theorem mem_filter_response_headers {hs : List (List Char × List Char)}
    {k v : List Char} (h : (k, v) ∈ filter_response_headers hs) :
    lowerL k ≠ pstr "content-length" ∧ lowerL k ≠ pstr "transfer-encoding"
    ∧ lowerL k ≠ pstr "connection" ∧ lowerL k ≠ pstr "content-encoding" := by
  rw [filter_response_headers] at h
  have hf := (List.mem_filter.mp h).2
  simp only [excluded_response_headers, Bool.not_eq_true'] at hf
  refine ⟨?_, ?_, ?_, ?_⟩ <;> (intro he; rw [he] at hf; simp [List.contains] at hf)

/-- C4: in both proxy paths and for every upstream behaviour, the headers
returned to the client never include `Content-Length`, `Transfer-Encoding`,
`Connection` or `Content-Encoding`, and the headers forwarded upstream
(recorded in `proxy_info.proxy_headers`, the very dict passed to the
client) never include `Content-Length` or `Host` — all compared on the
lowercased name. -/
theorem c4_proxy_header_exclusions (client : HttpClient)
    (proxy_url mock_path request_path : List Char) (path_params : Bindings)
    (query req_method : List Char) (req_headers : List (List Char × List Char))
    (body : List Char) :
    (∀ k v, (k, v) ∈ (process_proxy client proxy_url mock_path request_path path_params
        query req_method req_headers body).2.2.1 →
      lowerL k ≠ pstr "content-length" ∧ lowerL k ≠ pstr "transfer-encoding"
      ∧ lowerL k ≠ pstr "connection" ∧ lowerL k ≠ pstr "content-encoding")
    ∧ (∀ info, (process_proxy client proxy_url mock_path request_path path_params
        query req_method req_headers body).2.2.2 = some info →
      ∀ k v, (k, v) ∈ info.proxy_headers →
        lowerL k ≠ pstr "content-length" ∧ lowerL k ≠ pstr "host")
    ∧ (∀ k v, (k, v) ∈ (proxy_conditional_request client proxy_url request_path query
        req_method req_headers body path_params).2.2.1 →
      lowerL k ≠ pstr "content-length" ∧ lowerL k ≠ pstr "transfer-encoding"
      ∧ lowerL k ≠ pstr "connection" ∧ lowerL k ≠ pstr "content-encoding")
    ∧ (∀ info, (proxy_conditional_request client proxy_url request_path query
        req_method req_headers body path_params).2.2.2 = some info →
      ∀ k v, (k, v) ∈ info.proxy_headers →
        lowerL k ≠ pstr "content-length" ∧ lowerL k ≠ pstr "host") := by
  refine ⟨?_, ?_, ?_, ?_⟩
  · intro k v hmem
    rw [process_proxy] at hmem
    by_cases hpu : proxy_url.isEmpty
    · rw [if_pos hpu] at hmem
      simp at hmem
    · rw [if_neg hpu] at hmem
      cases hco : client req_method
          (build_proxy_url proxy_url mock_path request_path path_params query)
          (filter_request_headers req_headers) body with
      | ok st rhs txt => rw [hco] at hmem; exact mem_filter_response_headers hmem
      | requestError m => rw [hco] at hmem; simp at hmem
      | otherError m => rw [hco] at hmem; simp at hmem
  · intro info hinfo k v hmem
    rw [process_proxy] at hinfo
    by_cases hpu : proxy_url.isEmpty
    · rw [if_pos hpu] at hinfo
      simp at hinfo
    · rw [if_neg hpu] at hinfo
      cases hco : client req_method
          (build_proxy_url proxy_url mock_path request_path path_params query)
          (filter_request_headers req_headers) body <;>
        (rw [hco] at hinfo
         simp only [Option.some.injEq] at hinfo
         subst hinfo
         exact mem_filter_request_headers hmem)
  · intro k v hmem
    rw [proxy_conditional_request] at hmem
    cases hco : client req_method
        (build_proxy_url proxy_url request_path request_path path_params query)
        (filter_request_headers req_headers) body with
    | ok st rhs txt => rw [hco] at hmem; exact mem_filter_response_headers hmem
    | requestError m => rw [hco] at hmem; simp at hmem
    | otherError m => rw [hco] at hmem; simp at hmem
  · intro info hinfo k v hmem
    rw [proxy_conditional_request] at hinfo
    cases hco : client req_method
        (build_proxy_url proxy_url request_path request_path path_params query)
        (filter_request_headers req_headers) body <;>
      (rw [hco] at hinfo
       simp only [Option.some.injEq] at hinfo
       subst hinfo
       exact mem_filter_request_headers hmem)

/-- Witness for the C4 header-exclusion invariant at a concrete upstream
response that tries to smuggle every excluded header back. -/
theorem c4_proxy_header_exclusions_witness :
    lowerL (pstr "X-Trace") ≠ pstr "content-length"
    ∧ lowerL (pstr "X-Trace") ≠ pstr "transfer-encoding"
    ∧ lowerL (pstr "X-Trace") ≠ pstr "connection"
    ∧ lowerL (pstr "X-Trace") ≠ pstr "content-encoding" := by
  have h := (c4_proxy_header_exclusions
    (fun _ _ _ _ => HttpOutcome.ok 200
      [(pstr "Content-Length", pstr "5"), (pstr "X-Trace", pstr "t")] (pstr "hello"))
    (pstr "http://up") (pstr "/x") (pstr "/x") [] [] (pstr "GET")
    [(pstr "Host", pstr "h"), (pstr "Accept", pstr "*/*")] []).1
  exact h (pstr "X-Trace") (pstr "t") (by decide)

/-- Modelled from the claim C6's wording: the no-placeholder case takes
`proxyURL` with trailing `/` stripped and, when `requestPath` differs from
`mockPath`, appends "the suffix of requestPath following mockPath" (taken
verbatim, with a leading `/` ensured) — no trailing-slash normalization of
the two paths. -/
def proxy_target_claim (proxy_url mock_path request_path : List Char)
    (path_params : Bindings) : List Char :=
  if path_params.any (fun p => infixL ('{' :: p.1 ++ pstr "\x7d") proxy_url) then
    path_params.foldl (fun url p => replaceAllL url ('{' :: p.1 ++ pstr "\x7d") p.2) proxy_url
  else
    rstripCh '/' proxy_url ++
      (if request_path ≠ mock_path then
        (if isPrefixL (pstr "/") (request_path.drop mock_path.length) then
          request_path.drop mock_path.length
         else '/' :: request_path.drop mock_path.length)
       else [])

/-- Modelled from the claim C6's wording, with `?query` appended when the
query is non-empty. -/
def build_proxy_url_claim (proxy_url mock_path request_path : List Char)
    (path_params : Bindings) (query_string : List Char) : List Char :=
  if ¬ query_string.isEmpty then
    proxy_target_claim proxy_url mock_path request_path path_params ++ '?' :: query_string
  else proxy_target_claim proxy_url mock_path request_path path_params

/-- C6, counterexample to the claim as stated: for `proxyURL http://h`,
`mockPath /a`, `requestPath /a/` (no parameters, no query) the code strips
the trailing slash from the request path before comparing, finds the
normalized paths equal and appends nothing — `http://h` — while the claim's
verbatim suffix of `/a/` after `/a` is `/`, predicting `http://h/`. -/
theorem c6_target_url_counterexample :
    build_proxy_url (pstr "http://h") (pstr "/a") (pstr "/a/") [] [] = pstr "http://h"
    ∧ build_proxy_url_claim (pstr "http://h") (pstr "/a") (pstr "/a/") [] [] = pstr "http://h/"
    ∧ pstr "http://h" ≠ pstr "http://h/" := by
  refine ⟨?_, ?_, ?_⟩
  · decide
  · decide
  · decide

/-- The claim's target shape corrected for what the code does: both paths
are first stripped of trailing slashes; equal normalized paths append
nothing, a normalized request path extending the normalized mock path
appends the remainder with a leading `/` ensured, and any other request
path is appended whole (normalized). -/
def proxy_target_norm (proxy_url mock_path request_path : List Char)
    (path_params : Bindings) : List Char :=
  if path_params.any (fun p => infixL ('{' :: p.1 ++ pstr "\x7d") proxy_url) then
    path_params.foldl (fun url p => replaceAllL url ('{' :: p.1 ++ pstr "\x7d") p.2) proxy_url
  else
    rstripCh '/' proxy_url ++
      (if rstripCh '/' request_path = rstripCh '/' mock_path then []
       else if isPrefixL (rstripCh '/' mock_path) (rstripCh '/' request_path) then
         (if isPrefixL (pstr "/")
             ((rstripCh '/' request_path).drop (rstripCh '/' mock_path).length) then
           (rstripCh '/' request_path).drop (rstripCh '/' mock_path).length
          else '/' :: (rstripCh '/' request_path).drop (rstripCh '/' mock_path).length)
       else rstripCh '/' request_path)

theorem proxy_target_eq_norm (proxy_url mock_path request_path : List Char)
    (path_params : Bindings) :
    proxy_target proxy_url mock_path request_path path_params
      = proxy_target_norm proxy_url mock_path request_path path_params := by
  rw [proxy_target, proxy_target_norm]
  by_cases hany : path_params.any
      (fun p => infixL ('{' :: p.1 ++ pstr "\x7d") proxy_url) = true
  · rw [if_pos hany, if_pos hany]
  · rw [if_neg hany, if_neg hany]
    congr 1
    by_cases hraw : request_path = mock_path
    · rw [if_neg (not_not_intro hraw), hraw, if_pos rfl]
    · rw [if_pos hraw, extract_additional_path]
      by_cases hn : rstripCh '/' mock_path = rstripCh '/' request_path
      · rw [if_pos hn, if_pos hn.symm]
      · rw [if_neg hn, if_neg (Ne.symm hn)]

/-- C6 (amended): the substitution case is as claimed (each `{name}`
placeholder of a supplied parameter replaced in place, no path appended);
the append case holds only after normalizing both paths by stripping
trailing slashes, and when the normalized request path does not extend the
normalized mock path the code appends the entire normalized request path —
both departures witnessed by the counterexample inputs.  `?query` handling
is as claimed. -/
theorem c6_target_url_amended (proxy_url mock_path request_path : List Char)
    (path_params : Bindings) (query_string : List Char) :
    build_proxy_url proxy_url mock_path request_path path_params query_string
      = (if ¬ query_string.isEmpty then
          proxy_target_norm proxy_url mock_path request_path path_params ++ '?' :: query_string
         else proxy_target_norm proxy_url mock_path request_path path_params) := by
  rw [build_proxy_url, proxy_target_eq_norm]

/-!
`MockProcessor._process_conditional` and `_process_response_template`.
The Python evaluator (`exec` of `condition_code`, `eval` of branch
conditions and of response templates) is abstracted as oracles over an
evaluation context; the context is modelled as an association list mapping
a variable name to the `str()` image of its value — all the source ever
does with a context entry outside the evaluator is test name membership
and substitute the stringified value.
-/

/-- An evaluator context: variable name ↦ `str(value)`. -/
abbrev EvalCtx := List (List Char × List Char)

/-- The reserved names excluded by `_process_response_template` (both in the
`contains_python` heuristic and in the JSON fallback replacement).  Note
the source omits `path_params` here, so that binding is treated like a user
variable. -/
def reserved_template_vars : List (List Char) :=
  [pstr "request", pstr "headers", pstr "query", pstr "body", pstr "method",
   pstr "path", pstr "json"]

/-- The heuristic of `_process_response_template`: the template mentions a
non-reserved context variable's name, or contains one of the listed
arithmetic/conversion operator fragments. -/
def contains_python (template : List Char) (ctx : EvalCtx) : Bool :=
  (ctx.any fun p => !reserved_template_vars.contains p.1 && infixL p.1 template)
  || ([pstr " + ", pstr " - ", pstr " * ", pstr " / ",
       pstr "str(", pstr "int(", pstr "float("].any fun op => infixL op template)

/-- The fallback of the JSON-shaped branch on evaluation error: every
non-reserved context variable's NAME is textually replaced by its value in
the template. -/
def template_fallback_replace (template : List Char) (ctx : EvalCtx) : List Char :=
  ctx.foldl
    (fun r p => if reserved_template_vars.contains p.1 then r else replaceAllL r p.1 p.2)
    template

/-- `MockProcessor._process_response_template` with the two `eval` shapes as
oracles: `evalDict` evaluates the template as a Python dict and re-serializes
it to JSON, `evalStr` evaluates it as a value and stringifies.  A template
that does not look like Python is returned untouched; a JSON-shaped template
(stripped form starts with `{` and ends with `}`) falls back to
`template_fallback_replace` on error, anything else falls back to the
unchanged template (the outer `except`). -/
def process_response_template
    (evalDict evalStr : List Char → EvalCtx → Except (List Char) (List Char))
    (template : List Char) (ctx : EvalCtx) : List Char :=
  if contains_python template ctx then
    if isPrefixL (pstr "\x7b") (pyStrip template) ∧ isSuffixL (pstr "\x7d") (pyStrip template) then
      match evalDict template ctx with
      | Except.ok s => s
      | Except.error _ => template_fallback_replace template ctx
    else
      match evalStr template ctx with
      | Except.ok s => s
      | Except.error _ => template
  else template

/-- C8, counterexample to the claim as stated: a JSON-shaped template whose
evaluation errors is NOT returned unchanged — the inner `except` replaces
each non-reserved variable name by its value, so `{"v": n }` with `n = 3`
comes back as `{"v": 3 }`. -/
theorem c8_template_error_counterexample :
    process_response_template
      (fun _ _ => Except.error (pstr "SyntaxError"))
      (fun _ _ => Except.error (pstr "SyntaxError"))
      (pstr "\x7b\"v\": n \x7d") [(pstr "n", pstr "3")]
      = pstr "\x7b\"v\": 3 \x7d"
    ∧ pstr "\x7b\"v\": 3 \x7d" ≠ pstr "\x7b\"v\": n \x7d" := by
  constructor
  · decide
  · decide

/-- C8 (amended): a template the heuristic deems non-Python is returned
unchanged without evaluation; a non-JSON-shaped template whose evaluation
errors is returned unchanged; a JSON-shaped template whose dict evaluation
errors is returned with every non-reserved context variable's name textually
replaced by its value (which equals the original template only when no such
name occurs in it). -/
theorem c8_template_error_amended
    (evalDict evalStr : List Char → EvalCtx → Except (List Char) (List Char))
    (template : List Char) (ctx : EvalCtx) :
    (contains_python template ctx = false →
      process_response_template evalDict evalStr template ctx = template)
    ∧ (∀ e, contains_python template ctx = true →
        ¬ (isPrefixL (pstr "\x7b") (pyStrip template) = true
           ∧ isSuffixL (pstr "\x7d") (pyStrip template) = true) →
        evalStr template ctx = Except.error e →
        process_response_template evalDict evalStr template ctx = template)
    ∧ (∀ e, contains_python template ctx = true →
        (isPrefixL (pstr "\x7b") (pyStrip template) = true
         ∧ isSuffixL (pstr "\x7d") (pyStrip template) = true) →
        evalDict template ctx = Except.error e →
        process_response_template evalDict evalStr template ctx
          = template_fallback_replace template ctx) := by
  refine ⟨?_, ?_, ?_⟩
  · intro hcp
    rw [process_response_template, if_neg (by simp [hcp])]
  · intro e hcp hshape herr
    rw [process_response_template, if_pos hcp, if_neg hshape, herr]
  · intro e hcp hshape herr
    rw [process_response_template, if_pos hcp, if_pos hshape, herr]

/-- Witness for the amended C8 error behaviour at concrete templates. -/
theorem c8_template_error_witness :
    process_response_template
      (fun _ _ => Except.error (pstr "boom")) (fun _ _ => Except.error (pstr "boom"))
      (pstr "n > 1?") [(pstr "n", pstr "3")] = pstr "n > 1?"
    ∧ process_response_template
      (fun _ _ => Except.error (pstr "boom")) (fun _ _ => Except.error (pstr "boom"))
      (pstr "\x7b\"v\": n \x7d") [(pstr "n", pstr "3")]
      = template_fallback_replace (pstr "\x7b\"v\": n \x7d") [(pstr "n", pstr "3")] := by
  constructor
  · exact (c8_template_error_amended _ _ (pstr "n > 1?") [(pstr "n", pstr "3")]).2.1
      (pstr "boom") (by decide) (by decide) rfl
  · exact (c8_template_error_amended _ _ (pstr "\x7b\"v\": n \x7d")
      [(pstr "n", pstr "3")]).2.2 (pstr "boom") (by decide) (by decide) rfl

/-- One entry of `conditional_responses` (a dict in the source; absent keys
are `None`). -/
structure CondBranch where
  condition : Option (List Char)
  response_type : Option (List Char)
  proxy_url : Option (List Char)
  response : Option (List Char)
  status_code : Option Nat
  headers : Option (List (List Char × List Char))
deriving DecidableEq, Repr

/-- The variables excluded when a conditional proxy branch merges evaluator
bindings into the substitution parameters (`excluded_vars` plus the
underscore-prefix rule; the `is not None` guard is vacuous here because the
modelled context stores `str()` images). -/
def excluded_context_vars : List (List Char) :=
  [pstr "request", pstr "headers", pstr "query", pstr "body", pstr "method",
   pstr "path", pstr "json", pstr "__builtins__", pstr "__name__", pstr "__doc__",
   pstr "__package__"]

/-- Python dict assignment on an association list: overwrite in place or
append. -/
def setKey : Bindings → List Char → List Char → Bindings
  | [], k, v => [(k, v)]
  | p :: ps, k, v => if p.1 = k then (k, v) :: ps else p :: setKey ps k v

/-- The extended-parameters map of a conditional proxy branch: `path_params`
updated with every non-reserved, non-underscore evaluator binding. -/
def extended_params (path_params : Bindings) (ctx : EvalCtx) : Bindings :=
  (ctx.filter fun p =>
      !excluded_context_vars.contains p.1 && !isPrefixL (pstr "_") p.1).foldl
    (fun m p => setKey m p.1 p.2) path_params

/-- The response produced once a branch's condition evaluated truthy
(`_process_conditional` lines 447–503): a proxy branch with a truthy
`proxy_url` forwards via `_proxy_conditional_request` with the extended
parameters (a missing/empty `proxy_url` is a `500` configuration error); a
static branch expands its template over the context and returns its status,
body and headers (`resp_data.get('headers') or {}`).  The per-branch
`delay` only sleeps and is not modelled. -/
def branch_response (client : HttpClient)
    (evalDict evalStr : List Char → EvalCtx → Except (List Char) (List Char))
    (request_path query req_method : List Char)
    (req_headers : List (List Char × List Char)) (body_bytes : List Char)
    (path_params : Bindings) (ctx : EvalCtx) (b : CondBranch) : ProcResult :=
  if b.response_type.getD (pstr "static") = pstr "proxy" then
    match b.proxy_url with
    | some pu =>
      if ¬ pu.isEmpty then
        proxy_conditional_request client pu request_path query req_method req_headers
          body_bytes (extended_params path_params ctx)
      else (500, pstr "Ошибка конфигурации: не указан proxy_url", [], none)
    | none => (500, pstr "Ошибка конфигурации: не указан proxy_url", [], none)
  else
    (b.status_code.getD 200,
      process_response_template evalDict evalStr (b.response.getD []) ctx,
      b.headers.getD [], none)

/-- Whether one branch entry fires — the per-iteration test of the
`for i, resp_data in enumerate(...)` loop: a `None` entry is skipped, a
`None` condition is skipped, a condition whose evaluation raises is skipped
(logged), a falsy condition is skipped; only a present condition evaluating
truthy fires. -/
def branch_fires (evalB : List Char → EvalCtx → Except (List Char) Bool)
    (ctx : EvalCtx) : Option CondBranch → Bool
  | none => false
  | some b =>
    match b.condition with
    | none => false
    | some ct =>
      match evalB ct ctx with
      | Except.ok true => true
      | Except.ok false => false
      | Except.error _ => false

/-- The branch loop of `_process_conditional`: the first branch that fires
returns its response and ends the loop; when none fires, the service-level
default status and headers are returned with the no-match indicator body. -/
def conditional_loop (client : HttpClient)
    (evalB : List Char → EvalCtx → Except (List Char) Bool)
    (evalDict evalStr : List Char → EvalCtx → Except (List Char) (List Char))
    (request_path query req_method : List Char)
    (req_headers : List (List Char × List Char)) (body_bytes : List Char)
    (path_params : Bindings) (ctx : EvalCtx)
    (default_status : Nat) (default_headers : List (List Char × List Char)) :
    List (Option CondBranch) → ProcResult
  | [] => (default_status, pstr "Ни одно условие не выполнено", default_headers, none)
  | none :: rest =>
    conditional_loop client evalB evalDict evalStr request_path query req_method
      req_headers body_bytes path_params ctx default_status default_headers rest
  | some b :: rest =>
    if branch_fires evalB ctx (some b) then
      branch_response client evalDict evalStr request_path query req_method
        req_headers body_bytes path_params ctx b
    else
      conditional_loop client evalB evalDict evalStr request_path query req_method
        req_headers body_bytes path_params ctx default_status default_headers rest

/-- `MockProcessor._process_conditional`: with a truthy `condition_code` and
a non-empty branch list, run the pre-script once (`exec`, via the `execC`
oracle) over the initial context built from the request (`initCtx` — its
construction from `_prepare_request_data` binds only reserved names and
`path_params`, which no claim below inspects); a pre-script failure is a
`500` with the error message; otherwise the branch loop runs on the updated
context.  Without a truthy `condition_code` or with no branches the default
response is returned. -/
def process_conditional (client : HttpClient)
    (execC : List Char → EvalCtx → Except (List Char) EvalCtx)
    (evalB : List Char → EvalCtx → Except (List Char) Bool)
    (evalDict evalStr : List Char → EvalCtx → Except (List Char) (List Char))
    (condition_code : Option (List Char)) (branches : List (Option CondBranch))
    (default_status : Nat) (default_headers : List (List Char × List Char))
    (request_path query req_method : List Char)
    (req_headers : List (List Char × List Char)) (body_bytes : List Char)
    (path_params : Bindings) (initCtx : EvalCtx) : ProcResult :=
  match condition_code with
  | some code =>
    if ¬ code.isEmpty ∧ ¬ branches.isEmpty then
      match execC code initCtx with
      | Except.error e =>
        (500, pstr "Ошибка выполнения условного кода: " ++ e, [], none)
      | Except.ok ctx =>
        conditional_loop client evalB evalDict evalStr request_path query req_method
          req_headers body_bytes path_params ctx default_status default_headers branches
    else (default_status, pstr "Нет условий для обработки", default_headers, none)
  | none => (default_status, pstr "Нет условий для обработки", default_headers, none)

/-- A branch entry fires exactly when it is present, has a condition, and
that condition evaluates (without raising) to a truthy value. -/
def branch_taken (evalB : List Char → EvalCtx → Except (List Char) Bool)
    (ctx : EvalCtx) (br : Option CondBranch) : Prop :=
  ∃ b ct, br = some b ∧ b.condition = some ct ∧ evalB ct ctx = Except.ok true

theorem branch_fires_iff {evalB : List Char → EvalCtx → Except (List Char) Bool}
    {ctx : EvalCtx} {br : Option CondBranch} :
    branch_fires evalB ctx br = true ↔ branch_taken evalB ctx br := by
  constructor
  · intro h
    cases br with
    | none => cases h
    | some b =>
      cases hc : b.condition with
      | none => simp [branch_fires, hc] at h
      | some ct =>
        cases he : evalB ct ctx with
        | error e => simp [branch_fires, hc, he] at h
        | ok v =>
          cases v with
          | false => simp [branch_fires, hc, he] at h
          | true => exact ⟨b, ct, rfl, hc, he⟩
  · rintro ⟨b, ct, rfl, hc, he⟩
    simp [branch_fires, hc, he]

theorem conditional_loop_skips (client : HttpClient)
    (evalB : List Char → EvalCtx → Except (List Char) Bool)
    (evalDict evalStr : List Char → EvalCtx → Except (List Char) (List Char))
    (request_path query req_method : List Char)
    (req_headers : List (List Char × List Char)) (body_bytes : List Char)
    (path_params : Bindings) (ctx : EvalCtx)
    (default_status : Nat) (default_headers : List (List Char × List Char))
    (pre rest : List (Option CondBranch))
    (hpre : ∀ x ∈ pre, ¬ branch_taken evalB ctx x) :
    conditional_loop client evalB evalDict evalStr request_path query req_method
      req_headers body_bytes path_params ctx default_status default_headers (pre ++ rest)
    = conditional_loop client evalB evalDict evalStr request_path query req_method
      req_headers body_bytes path_params ctx default_status default_headers rest := by
  induction pre with
  | nil => rfl
  | cons x pre' ih =>
    have hx := hpre x (by simp)
    have ih' := ih (fun y hy => hpre y (by simp [hy]))
    cases x with
    | none => rw [List.cons_append, conditional_loop, ih']
    | some b =>
      have hfalse : branch_fires evalB ctx (some b) = false := by
        cases hf : branch_fires evalB ctx (some b)
        · rfl
        · exact absurd (branch_fires_iff.mp hf) hx
      rw [List.cons_append, conditional_loop, if_neg (by simp [hfalse]), ih']

/-- C7: conditional evaluation is order-sensitive.  (1) If the pre-script
itself fails, the processor returns `500` with the error message appended to
the fixed prefix and no branch runs.  (2) If every branch before position
`i` is skipped (absent entry, absent condition, raising condition, or falsy
condition) and branch `i`'s condition evaluates truthy, the result is
exactly branch `i`'s response — for EVERY suffix of later branches, which is
the pure-model statement that no later branch's condition is evaluated. -/
theorem c7_conditional_order (client : HttpClient)
    (execC : List Char → EvalCtx → Except (List Char) EvalCtx)
    (evalB : List Char → EvalCtx → Except (List Char) Bool)
    (evalDict evalStr : List Char → EvalCtx → Except (List Char) (List Char))
    (code : List Char) (default_status : Nat)
    (default_headers : List (List Char × List Char))
    (request_path query req_method : List Char)
    (req_headers : List (List Char × List Char)) (body_bytes : List Char)
    (path_params : Bindings) (initCtx : EvalCtx) (hcode : ¬ code.isEmpty) :
    (∀ e branches, ¬ branches.isEmpty →
      execC code initCtx = Except.error e →
      process_conditional client execC evalB evalDict evalStr (some code) branches
        default_status default_headers request_path query req_method req_headers
        body_bytes path_params initCtx
      = (500, pstr "Ошибка выполнения условного кода: " ++ e, [], none))
    ∧ (∀ ctx pre b ct post,
        execC code initCtx = Except.ok ctx →
        (∀ x ∈ pre, ¬ branch_taken evalB ctx x) →
        b.condition = some ct →
        evalB ct ctx = Except.ok true →
        process_conditional client execC evalB evalDict evalStr (some code)
          (pre ++ some b :: post) default_status default_headers request_path query
          req_method req_headers body_bytes path_params initCtx
        = branch_response client evalDict evalStr request_path query req_method
            req_headers body_bytes path_params ctx b) := by
  constructor
  · intro e branches hbr he
    rw [process_conditional, if_pos ⟨hcode, hbr⟩, he]
  · intro ctx pre b ct post hexec hpre hcond htrue
    have hne : ¬ (pre ++ some b :: post).isEmpty := by simp
    rw [process_conditional, if_pos ⟨hcode, hne⟩, hexec]
    show conditional_loop client evalB evalDict evalStr request_path query req_method
        req_headers body_bytes path_params ctx default_status default_headers
        (pre ++ some b :: post)
      = branch_response client evalDict evalStr request_path query req_method
          req_headers body_bytes path_params ctx b
    rw [conditional_loop_skips client evalB evalDict evalStr request_path query
      req_method req_headers body_bytes path_params ctx default_status default_headers
      pre (some b :: post) hpre]
    rw [conditional_loop, if_pos (branch_fires_iff.mpr ⟨b, ct, rfl, hcond, htrue⟩)]

/-- Witness for C7 at a concrete conditional service: the first branch's
condition is falsy, the second fires and its static response is returned;
the third branch sits after the chosen one and cannot influence the
result. -/
theorem c7_conditional_order_witness :
    process_conditional
      (fun _ _ _ _ => HttpOutcome.otherError (pstr "unused"))
      (fun _ ctx => Except.ok ctx)
      (fun ct _ => Except.ok (ct = pstr "n > 1"))
      (fun _ _ => Except.error (pstr "na")) (fun _ _ => Except.error (pstr "na"))
      (some (pstr "n = 2"))
      [some ⟨some (pstr "n > 9"), none, none, some (pstr "big"), some 201, none⟩,
       some ⟨some (pstr "n > 1"), none, none, some (pstr "mid"), some 202, none⟩,
       some ⟨some (pstr "n > 0"), none, none, some (pstr "low"), some 203, none⟩]
      418 [] (pstr "/x") [] (pstr "GET") [] [] [] []
    = (202, pstr "mid", [], none) := by
  have hpre : ∀ x ∈ [some (⟨some (pstr "n > 9"), none, none, some (pstr "big"),
      some 201, none⟩ : CondBranch)],
      ¬ branch_taken (fun ct _ => Except.ok (ct = pstr "n > 1")) [] x := by
    intro x hx ht
    have hf := branch_fires_iff.mpr ht
    simp at hx
    rw [hx] at hf
    exact absurd hf (by decide)
  have h := (c7_conditional_order
    (fun _ _ _ _ => HttpOutcome.otherError (pstr "unused"))
    (fun _ ctx => Except.ok ctx)
    (fun ct _ => Except.ok (ct = pstr "n > 1"))
    (fun _ _ => Except.error (pstr "na")) (fun _ _ => Except.error (pstr "na"))
    (pstr "n = 2") 418 [] (pstr "/x") [] (pstr "GET") [] [] [] []
    (by decide)).2 []
    [some ⟨some (pstr "n > 9"), none, none, some (pstr "big"), some 201, none⟩]
    ⟨some (pstr "n > 1"), none, none, some (pstr "mid"), some 202, none⟩
    (pstr "n > 1")
    [some ⟨some (pstr "n > 0"), none, none, some (pstr "low"), some 203, none⟩]
    rfl hpre rfl rfl
  exact h.trans (by decide)

/-!
`app/api/websocket.py` — the subscription hub (`ConnectionManager`,
`broadcast_log_message`).  Connections are identified by numbers; delivery
of a frame is modelled by listing, per published record, the connections a
send is addressed to (sends are best-effort in the source, but every
connected socket is addressed exactly as listed).
-/

/-- The two registries of `ConnectionManager`: the global connection list
and the per-service map (insertion-ordered). -/
structure ConnectionManager where
  active_connections : List Nat
  service_connections : List (Nat × List Nat)
deriving DecidableEq, Repr

/-- Appending a connection to a service's list, creating the entry when
absent (`self.service_connections[service_id].append(websocket)` after the
`not in` check). -/
def service_append : List (Nat × List Nat) → Nat → Nat → List (Nat × List Nat)
  | [], sid, ws => [(sid, [ws])]
  | e :: rest, sid, ws =>
    if e.1 = sid then (e.1, e.2 ++ [ws]) :: rest else e :: service_append rest sid ws

/-- Python `self.service_connections.get(service_id)` keyed by number. -/
def lookupService (sid : Nat) : List (Nat × List Nat) → Option (List Nat)
  | [] => none
  | e :: rest => if e.1 = sid then some e.2 else lookupService sid rest

/-- `ConnectionManager.connect`: the socket is ALWAYS appended to the global
list; when the optional `service_id` is truthy (present and non-zero) it is
also appended to that service's list. -/
def connect : ConnectionManager → Nat → Option Nat → ConnectionManager
  | m, ws, some sid =>
    if sid ≠ 0 then
      { active_connections := m.active_connections ++ [ws],
        service_connections := service_append m.service_connections sid ws }
    else { m with active_connections := m.active_connections ++ [ws] }
  | m, ws, none => { m with active_connections := m.active_connections ++ [ws] }

/-- `broadcast_log_message`: the addressees of the single serialized frame
for one log record — every global connection (`broadcast_to_all`), then,
when the record's `mock_service_id` is truthy, every connection registered
for that id (`broadcast_to_service`).  A connection appearing twice is
addressed twice. -/
def broadcast_frames (m : ConnectionManager) : Option Nat → List Nat
  | some sid =>
    m.active_connections ++
      (if sid ≠ 0 then (lookupService sid m.service_connections).getD [] else [])
  | none => m.active_connections

/-- How many frames one record delivers to one connection. -/
def frames_to (m : ConnectionManager) (record_service_id : Option Nat) (ws : Nat) :
    Nat :=
  (broadcast_frames m record_service_id).count ws

/-- A hub built by a sequence of `connect` registrations. -/
def build_manager (regs : List (Nat × Option Nat)) : ConnectionManager :=
  regs.foldl (fun m r => connect m r.1 r.2) ⟨[], []⟩

/-- C1, counterexample to the claim as stated: connections 1 (global),
2 (service 7) and 3 (service 8); a record of service 7 delivers TWO frames
to connection 2 (the claim says exactly one: the service subscriber is also
in the global list) and ONE frame to connection 3 (the claim says a
subscriber of a different service receives none). -/
theorem c1_fanout_counterexample :
    frames_to (build_manager [(1, none), (2, some 7), (3, some 8)]) (some 7) 2 = 2
    ∧ (2 : Nat) ≠ 1
    ∧ frames_to (build_manager [(1, none), (2, some 7), (3, some 8)]) (some 7) 3 = 1
    ∧ (1 : Nat) ≠ 0 := by
  refine ⟨?_, ?_, ?_, ?_⟩
  · decide
  · decide
  · decide
  · decide

theorem build_manager_go_active (regs : List (Nat × Option Nat))
    (m : ConnectionManager) :
    (regs.foldl (fun m r => connect m r.1 r.2) m).active_connections
      = m.active_connections ++ regs.map Prod.fst := by
  induction regs generalizing m with
  | nil => simp
  | cons r rest ih =>
    rw [List.foldl_cons, ih, List.map_cons]
    have hc : (connect m r.1 r.2).active_connections
        = m.active_connections ++ [r.1] := by
      cases hr2 : r.2 with
      | none => rw [connect]
      | some sid =>
        rw [connect]
        by_cases hz : sid ≠ 0
        · rw [if_pos hz]
        · rw [if_neg hz]
    rw [hc, List.append_assoc]
    rfl

theorem lookupService_append_self (l : List (Nat × List Nat)) (sid ws : Nat) :
    lookupService sid (service_append l sid ws)
      = some ((lookupService sid l).getD [] ++ [ws]) := by
  induction l with
  | nil => simp [service_append, lookupService]
  | cons e rest ih =>
    rw [service_append]
    by_cases he : e.1 = sid
    · rw [if_pos he, lookupService, if_pos he, lookupService, if_pos he]
      simp
    · rw [if_neg he, lookupService, if_neg he, lookupService, if_neg he, ih]

theorem lookupService_append_other (l : List (Nat × List Nat)) (sid sid' ws : Nat)
    (hne : sid' ≠ sid) :
    lookupService sid (service_append l sid' ws) = lookupService sid l := by
  induction l with
  | nil => simp [service_append, lookupService, hne]
  | cons e rest ih =>
    rw [service_append]
    by_cases he : e.1 = sid'
    · rw [if_pos he, lookupService, lookupService]
      have : ¬ e.1 = sid := by rw [he]; exact hne
      rw [if_neg this, if_neg this]
    · rw [if_neg he, lookupService, lookupService]
      by_cases hs : e.1 = sid
      · rw [if_pos hs, if_pos hs]
      · rw [if_neg hs, if_neg hs, ih]

theorem build_manager_go_service (regs : List (Nat × Option Nat))
    (m : ConnectionManager) (s : Nat) (hs : s ≠ 0) :
    (lookupService s (regs.foldl (fun m r => connect m r.1 r.2) m).service_connections).getD []
      = (lookupService s m.service_connections).getD []
        ++ (regs.filter (fun r => r.2 = some s)).map Prod.fst := by
  induction regs generalizing m with
  | nil => simp
  | cons r rest ih =>
    rw [List.foldl_cons, ih]
    by_cases hr : r.2 = some s
    · have hsvc : (connect m r.1 r.2).service_connections
          = service_append m.service_connections s r.1 := by
        rw [hr, connect, if_pos hs]
      rw [hsvc, lookupService_append_self]
      have hf : List.filter (fun r => r.2 = some s) (r :: rest)
          = r :: List.filter (fun r => r.2 = some s) rest := by
        rw [List.filter_cons]
        simp [hr]
      rw [hf, List.map_cons, Option.getD_some, List.append_assoc]
      rfl
    · have hsvc : lookupService s (connect m r.1 r.2).service_connections
          = lookupService s m.service_connections := by
        cases hr2 : r.2 with
        | none => rw [connect]
        | some sid =>
          rw [connect]
          by_cases hz : sid ≠ 0
          · rw [if_pos hz]
            have hneq : sid ≠ s := by
              intro he
              apply hr
              rw [hr2, he]
            exact lookupService_append_other m.service_connections s sid r.1 hneq
          · rw [if_neg hz]
      rw [hsvc]
      have hf : List.filter (fun r => r.2 = some s) (r :: rest)
          = List.filter (fun r => r.2 = some s) rest := by
        rw [List.filter_cons]
        simp [hr]
      rw [hf]

theorem fst_nodup_unique {l : List (Nat × Option Nat)}
    (h : (l.map Prod.fst).Nodup) {a : Nat} {b₁ b₂ : Option Nat}
    (h1 : (a, b₁) ∈ l) (h2 : (a, b₂) ∈ l) : b₁ = b₂ := by
  induction l with
  | nil => simp at h1
  | cons p rest ih =>
    rw [List.map_cons] at h
    have hnotin := (List.nodup_cons.mp h).1
    rcases List.mem_cons.mp h1 with he1 | hm1 <;> rcases List.mem_cons.mp h2 with he2 | hm2
    · have := he1.trans he2.symm
      simpa using this
    · exfalso
      apply hnotin
      rw [← he1]
      exact List.mem_map.mpr ⟨(a, b₂), hm2, rfl⟩
    · exfalso
      apply hnotin
      rw [← he2]
      exact List.mem_map.mpr ⟨(a, b₁), hm1, rfl⟩
    · exact ih (List.nodup_cons.mp h).2 hm1 hm2

/-- C1 (amended): for a hub with distinct connections, a published record of
a (truthy) service id `s` delivers, to every connected subscriber, one frame
via the global broadcast, and a SECOND frame to a subscriber registered for
`s`: a subscriber of service `s` receives exactly two frames per record and
every other subscriber — global or registered for a different service —
receives exactly one frame.  (The spec's "at most one live event per
subscriber per record" fails because `connect` adds every socket to the
global list AND to its service's list, and `broadcast_log_message` sends to
both registries.) -/
theorem c1_fanout_amended (regs : List (Nat × Option Nat))
    (hnd : (regs.map Prod.fst).Nodup) (c : Nat) (sid : Option Nat) (s : Nat)
    (hmem : (c, sid) ∈ regs) (hs : s ≠ 0) :
    frames_to (build_manager regs) (some s) c
      = if sid = some s then 2 else 1 := by
  have hact : (build_manager regs).active_connections = regs.map Prod.fst := by
    rw [build_manager, build_manager_go_active]
    rfl
  have hsvc : (lookupService s (build_manager regs).service_connections).getD []
      = (regs.filter (fun r => r.2 = some s)).map Prod.fst := by
    rw [build_manager, build_manager_go_service _ _ _ hs]
    rfl
  rw [frames_to, broadcast_frames, if_pos hs, hact, hsvc, List.count_append]
  have h1 : (regs.map Prod.fst).count c = 1 :=
    List.count_eq_one_of_mem hnd (List.mem_map.mpr ⟨(c, sid), hmem, rfl⟩)
  by_cases hcase : sid = some s
  · rw [if_pos hcase]
    have hsub : List.Sublist ((regs.filter (fun r => r.2 = some s)).map Prod.fst)
        (regs.map Prod.fst) := (List.filter_sublist regs).map Prod.fst
    have hnd2 := List.Nodup.sublist hsub hnd
    have hm2 : c ∈ (regs.filter (fun r => r.2 = some s)).map Prod.fst :=
      List.mem_map.mpr ⟨(c, sid),
        List.mem_filter.mpr ⟨hmem, by simp [hcase]⟩, rfl⟩
    have h2 := List.count_eq_one_of_mem hnd2 hm2
    omega
  · rw [if_neg hcase]
    have h2 : ((regs.filter (fun r => r.2 = some s)).map Prod.fst).count c = 0 := by
      rw [List.count_eq_zero]
      intro hc
      obtain ⟨r2, hr2, hfst⟩ := List.mem_map.mp hc
      have hp := (List.mem_filter.mp hr2).2
      simp only [decide_eq_true_eq] at hp
      have hrr : (c, some s) ∈ regs := by
        have hmm := (List.mem_filter.mp hr2).1
        have hre : r2 = (c, some s) := Prod.ext hfst hp
        rw [← hre]
        exact hmm
      exact hcase (fst_nodup_unique hnd hmem hrr)
    omega

/-- Witness for the amended C1 fan-out counts at a concrete hub. -/
theorem c1_fanout_witness :
    frames_to (build_manager [(1, none), (2, some 7), (3, some 8)]) (some 7) 2
      = if (some 7 : Option Nat) = some 7 then 2 else 1 :=
  c1_fanout_amended [(1, none), (2, some 7), (3, some 8)] (by decide) 2 (some 7) 7
    (by decide) (by decide)

end MockGateway
